import Mathlib

/-!
# salesforge: the PostgreSQL sequence store

A shallow embedding of `internal/model/sequence_store.go` and
`internal/model/pg/pg_store.go`.

The store is a thin layer over a relational backend reached through pgx.  The
backend is not part of the repository, so it is modelled explicitly and kept
apart from the store code:

* `DB` is the content of the two tables plus the two id generators;
* the `DB.*` / `Tx.*` functions give the meaning of the SQL statements that
  the store builds, and of the pgx calls (`Begin`, `QueryRow(..).Scan`,
  `Query`, `Exec`, `Commit`, `Rollback`) that carry them;
* every call that can fail in pgx can be made to fail by the environment
  record passed to the operation (`CreateEnv`, `FetchEnv`, ...);
* ids are `int8` values at the backend: a `uint64` argument above `maxInt64`
  is refused by the driver, and an id generator stops at `maxInt64`.

The five store operations are then transcribed statement by statement from
`pg_store.go`.  A Go `*T` argument that is mutated in place becomes an
argument and a returned value.

The handlers of `internal/app/routes.go` are transcribed over any store behind
the interface `model.SequenceStore`.  A handler returns its response together
with the store calls it made.  Of gin and the standard library, the path
parameters are a function from names to strings, `strconv.ParseUint(s, 10, 64)`
is written out, and the request body is the request struct as decoded from
JSON, validated as its `binding` tags ask.
-/

namespace Salesforge

/-! ## Data model (`internal/model/sequence_store.go`) -/

/-- A Go slice: `nil` is the nil slice, `mk []` an allocated empty slice. -/
inductive Slice (α : Type) where
  | nil : Slice α
  | mk (elems : List α) : Slice α
  deriving DecidableEq, Repr

namespace Slice

/-- The elements of a slice, forgetting whether it is nil. -/
def toList {α : Type} : Slice α → List α
  | nil => []
  | mk l => l

/-- Go `len(s)`. -/
def len {α : Type} (s : Slice α) : Nat := s.toList.length

/-- Go `append(s, x)`: the result is never nil. -/
def append {α : Type} (s : Slice α) (x : α) : Slice α := mk (s.toList ++ [x])

/-- The slice obtained by appending the elements of `l`, in order, to a nil
slice: nil when there is nothing to append. -/
def collect {α : Type} : List α → Slice α
  | [] => nil
  | a :: l => mk (a :: l)

end Slice

/-- The Go struct `model.Step`; `time.Time` is a natural number, `0` the zero time. -/
structure Step where
  ID : Nat
  SequenceID : Nat
  Subject : String
  Content : String
  CreatedAt : Nat
  UpdatedAt : Nat
  deriving DecidableEq, Repr

/-- The Go struct `model.Sequence`; `Steps` is the slice `[]*Step`. -/
structure Sequence where
  ID : Nat
  Name : String
  OpenTrackingEnabled : Bool
  ClickTrackingEnabled : Bool
  CreatedAt : Nat
  UpdatedAt : Nat
  Steps : Slice Step
  deriving DecidableEq, Repr

/-- Errors returned by the store.  `ErrNoRows` is `pgx.ErrNoRows`,
`ErrTxCommitRollback` is `pgx.ErrTxCommitRollback`, `Encoding value` is the
error of pgx when a `uint64` argument is too large for the `int8` parameter
it is sent as, `IdExhausted` is the error of the server when an id generator
has passed the largest `int8`, and `Storage code` is any other failure
reported by the driver or the server. -/
inductive StoreError where
  | ErrNoRows : StoreError
  | ErrTxCommitRollback : StoreError
  | Storage (code : Nat) : StoreError
  | Encoding (value : Nat) : StoreError
  | IdExhausted : StoreError
  deriving DecidableEq, Repr

/-- The largest `int64`: the largest id an `int8` column or parameter holds. -/
def maxInt64 : Nat := 2 ^ 63 - 1

/-- The encoding of the `uint64` arguments of a statement as `int8`
parameters, in the order of the placeholders: the first argument above
`maxInt64` makes the call fail before anything is sent. -/
def encodeArgs : List Nat → Option StoreError
  | [] => none
  | v :: vs => if v > maxInt64 then some (.Encoding v) else encodeArgs vs

/-! ## The relational backend -/

/-- A row of table `sequences`. -/
structure SequenceRow where
  id : Nat
  name : String
  open_tracking_enabled : Bool
  click_tracking_enabled : Bool
  created_at : Nat
  updated_at : Nat
  deriving DecidableEq, Repr

/-- A row of table `steps`. -/
structure StepRow where
  id : Nat
  sequence_id : Nat
  subject : String
  content : String
  created_at : Nat
  updated_at : Nat
  deriving DecidableEq, Repr

/-- The database: both tables in storage order, and the next value of the id
generator of each table. -/
structure DB where
  sequences : List SequenceRow
  steps : List StepRow
  sequences_id_seq : Nat
  steps_id_seq : Nat
  deriving DecidableEq, Repr

/-- The constraints of the schema: ids come from the generators, ids are
primary keys, `steps.sequence_id` references `sequences.id`, and the ids are
`int8` values, so that a generator is at most one past `maxInt64`. -/
def DB.WF (db : DB) : Prop :=
  (∀ r ∈ db.sequences, r.id < db.sequences_id_seq) ∧
  (∀ r ∈ db.steps, r.id < db.steps_id_seq) ∧
  (db.sequences.map (fun r => r.id)).Nodup ∧
  (db.steps.map (fun r => r.id)).Nodup ∧
  (∀ r ∈ db.steps, ∃ s ∈ db.sequences, s.id = r.sequence_id) ∧
  db.sequences_id_seq ≤ maxInt64 + 1 ∧
  db.steps_id_seq ≤ maxInt64 + 1

instance (db : DB) : Decidable db.WF := by
  unfold DB.WF
  infer_instance

/-- Clause `ORDER BY id ASC` on step rows. -/
def orderByID (rows : List StepRow) : List StepRow :=
  rows.insertionSort (fun a b => a.id ≤ b.id)

instance : IsTotal StepRow (fun a b => a.id ≤ b.id) := ⟨fun a b => Nat.le_total a.id b.id⟩

instance : IsTrans StepRow (fun a b => a.id ≤ b.id) := ⟨fun _ _ _ h1 h2 => Nat.le_trans h1 h2⟩

instance : IsAntisymm StepRow (fun a b => a.id < b.id) :=
  ⟨fun _ _ h1 h2 => absurd h1 (Nat.lt_asymm h2)⟩

/-- Statement `INSERT INTO sequences (name, open_tracking_enabled, click_tracking_enabled)
VALUES (..) RETURNING id, created_at, updated_at`: the row gets the next id and
the current time in both timestamps. -/
def DB.insertSequence (db : DB) (now : Nat) (name : String) (openT clickT : Bool) :
    DB × List (Nat × Nat × Nat) :=
  let row : SequenceRow := ⟨db.sequences_id_seq, name, openT, clickT, now, now⟩
  ({ db with sequences := db.sequences ++ [row],
             sequences_id_seq := db.sequences_id_seq + 1 },
   [(row.id, row.created_at, row.updated_at)])

/-- The rows built by a multi-row `VALUES` list of `(sequence_id, subject,
content)` triples: ids are drawn from the generator in the order of the list. -/
def newStepRows (now : Nat) : Nat → List (Nat × String × String) → List StepRow
  | _, [] => []
  | next, (sid, subject, content) :: rest =>
    ⟨next, sid, subject, content, now, now⟩ :: newStepRows now (next + 1) rest

/-- Statement `INSERT INTO steps (sequence_id, subject, content) VALUES (..),(..),..
RETURNING id, subject, content, created_at, updated_at`: the new rows are
returned in the order of the `VALUES` list. -/
def DB.insertSteps (db : DB) (now : Nat) (values : List (Nat × String × String)) :
    DB × List StepRow :=
  let rows := newStepRows now db.steps_id_seq values
  ({ db with steps := db.steps ++ rows,
             steps_id_seq := db.steps_id_seq + values.length },
   rows)

/-- Statement `SELECT id, name, .. FROM sequences WHERE id = $1`. -/
def DB.selectSequence (db : DB) (id : Nat) : List SequenceRow :=
  db.sequences.filter (fun r => r.id = id)

/-- Statement `SELECT id, sequence_id, .. FROM steps WHERE sequence_id = $1 ORDER BY id ASC`. -/
def DB.selectSteps (db : DB) (id : Nat) : List StepRow :=
  orderByID (db.steps.filter (fun r => r.sequence_id = id))

/-- Statement `UPDATE sequences SET open_tracking_enabled = .., click_tracking_enabled = ..,
updated_at = NOW() WHERE id = .. RETURNING id, created_at, updated_at`. -/
def DB.updateSequence (db : DB) (now id : Nat) (openT clickT : Bool) :
    DB × List (Nat × Nat × Nat) :=
  let upd : SequenceRow → SequenceRow := fun r =>
    if r.id = id then
      { r with open_tracking_enabled := openT, click_tracking_enabled := clickT,
               updated_at := now }
    else r
  let sequences := db.sequences.map upd
  ({ db with sequences := sequences },
   (sequences.filter (fun r => r.id = id)).map
     (fun r => (r.id, r.created_at, r.updated_at)))

/-- Statement `UPDATE steps SET subject = .., content = .., updated_at = NOW()
WHERE id = .. AND sequence_id = .. RETURNING id, created_at, updated_at`. -/
def DB.updateStep (db : DB) (now id sequenceID : Nat) (subject content : String) :
    DB × List (Nat × Nat × Nat) :=
  let upd : StepRow → StepRow := fun r =>
    if r.id = id ∧ r.sequence_id = sequenceID then
      { r with subject := subject, content := content, updated_at := now }
    else r
  let steps := db.steps.map upd
  ({ db with steps := steps },
   (steps.filter (fun r => r.id = id ∧ r.sequence_id = sequenceID)).map
     (fun r => (r.id, r.created_at, r.updated_at)))

/-- Statement `DELETE FROM steps WHERE id = .. AND sequence_id = ..`, with the number of
rows affected. -/
def DB.deleteStep (db : DB) (id sequenceID : Nat) : DB × Nat :=
  let hit : StepRow → Bool := fun r => r.id = id ∧ r.sequence_id = sequenceID
  ({ db with steps := db.steps.filter (fun r => !hit r) },
   (db.steps.filter hit).length)

/-! ## The pgx calls -/

/-- What `rows.Next()` and `rows.Scan` will produce for a result set: one entry
per row delivered (the scanned row, or the error `Scan` returns for it), and the
value of `rows.Err()` once `Next` has returned false. -/
structure Rows (α : Type) where
  pending : List (Except StoreError α)
  err : Option StoreError

/-- Per-row `Scan` outcomes: `some (k, code)` makes the scan of row `k` fail. -/
def markScan {α : Type} : Option (Nat × Nat) → List α → List (Except StoreError α)
  | _, [] => []
  | none, r :: rs => .ok r :: markScan none rs
  | some (0, code), _ :: rs => .error (.Storage code) :: markScan none rs
  | some (k + 1, code), r :: rs => .ok r :: markScan (some (k, code)) rs

/-- The cursor over `result`.  `iterFault = some (k, code)` makes `Next` stop
with error `code` after at most `k` rows have been delivered. -/
def mkRows {α : Type} (result : List α) (scanFault iterFault : Option (Nat × Nat)) :
    Rows α :=
  match iterFault with
  | none => ⟨markScan scanFault result, none⟩
  | some (k, code) => ⟨markScan scanFault (result.take k), some (.Storage code)⟩

/-- Row-level result of `QueryRow(..).Scan(..)` on a statement that returned
`result`: no row is `pgx.ErrNoRows`, otherwise the first row is scanned. -/
def scanRow {α : Type} (result : List α) (scanFault : Option Nat) : Except StoreError α :=
  match result with
  | [] => .error .ErrNoRows
  | r :: _ =>
    match scanFault with
    | some code => .error (.Storage code)
    | none => .ok r

/-- The call `QueryRow(..).Scan(&a, &b, &c)` on a statement that returned
`result`, with `dest` the content of the three destinations before the call:
the error and the destinations after it.  No row is `pgx.ErrNoRows` and
nothing is stored.  Otherwise the columns of the first row are stored one
after the other; `scanFault = some (k, code)` makes the scan of column `k`
(of the last column for a larger `k`) fail, the columns before it having been
stored. -/
def scanInto (result : List (Nat × Nat × Nat)) (scanFault : Option (Nat × Nat))
    (dest : Nat × Nat × Nat) : Option StoreError × (Nat × Nat × Nat) :=
  match result with
  | [] => (some .ErrNoRows, dest)
  | (a, b, c) :: _ =>
    match scanFault with
    | none => (none, (a, b, c))
    | some (0, code) => (some (.Storage code), dest)
    | some (1, code) => (some (.Storage code), (a, dest.2.1, dest.2.2))
    | some (_ + 2, code) => (some (.Storage code), (a, b, dest.2.2))

/-- Statements sent on a transaction. -/
inductive Stmt where
  | insertSequence : Stmt
  | insertSteps (n : Nat) : Stmt
  deriving DecidableEq, Repr

/-- An open transaction: the database at `BEGIN`, the database as seen inside
the transaction, whether a statement has failed (the server then accepts
nothing but a rollback), and the statements sent so far. -/
structure Tx where
  base : DB
  work : DB
  aborted : Bool
  stmts : List Stmt

/-- Call `pool.Begin(ctx)`. -/
def Begin (db : DB) (fault : Option Nat) : Except StoreError Tx :=
  match fault with
  | some code => .error (.Storage code)
  | none => .ok ⟨db, db, false, []⟩

/-- Call `tx.Rollback(ctx)`: the tables are those at `BEGIN`; id generators are not
transactional and keep the values drawn inside the transaction. -/
def Tx.Rollback (tx : Tx) : DB :=
  { tx.base with sequences_id_seq := tx.work.sequences_id_seq,
                 steps_id_seq := tx.work.steps_id_seq }

/-- Call `tx.Commit(ctx)`.  A failing commit leaves nothing behind; committing a
transaction in which a statement failed is answered by a rollback, which pgx
reports as `ErrTxCommitRollback`. -/
def Tx.Commit (tx : Tx) (fault : Option Nat) : DB × Option StoreError :=
  match fault with
  | some code => (tx.Rollback, some (.Storage code))
  | none =>
    if tx.aborted then (tx.Rollback, some .ErrTxCommitRollback)
    else (tx.work, none)

/-- Call `tx.QueryRow(ctx, <insert into sequences>).Scan(&id, &createdAt,
&updatedAt)`, with `dest` the three destinations before the call: the
transaction, the error and the destinations after it.  The statement fails at
the server when the id generator has passed `maxInt64`. -/
def Tx.queryRowInsertSequence (tx : Tx) (now : Nat) (name : String) (openT clickT : Bool)
    (execFault : Option Nat) (scanFault : Option (Nat × Nat)) (dest : Nat × Nat × Nat) :
    Tx × Option StoreError × (Nat × Nat × Nat) :=
  let stmts := tx.stmts ++ [Stmt.insertSequence]
  match execFault with
  | some code => ({ tx with aborted := true, stmts := stmts }, some (.Storage code), dest)
  | none =>
    if tx.work.sequences_id_seq > maxInt64 then
      ({ tx with aborted := true, stmts := stmts }, some .IdExhausted, dest)
    else
      let (work, result) := tx.work.insertSequence now name openT clickT
      ({ tx with work := work, stmts := stmts }, scanInto result scanFault dest)

/-- Call `tx.Query(ctx, <insert into steps>)`.  `queryFault` is an error returned by
`Query` itself, as is a `sequence_id` argument that cannot be encoded;
`iterFault` is a failure of the statement or of the connection that pgx
reports only through the cursor, in which case the transaction is aborted.
The statement fails at the server, which the cursor reports too, when the id
generator would pass `maxInt64`. -/
def Tx.queryInsertSteps (tx : Tx) (now : Nat) (values : List (Nat × String × String))
    (queryFault : Option Nat) (scanFault iterFault : Option (Nat × Nat)) :
    Tx × Except StoreError (Rows StepRow) :=
  let stmts := tx.stmts ++ [Stmt.insertSteps values.length]
  match queryFault with
  | some code => ({ tx with aborted := true, stmts := stmts }, .error (.Storage code))
  | none =>
    match encodeArgs (values.map (fun v => v.1)) with
    | some err => ({ tx with aborted := true, stmts := stmts }, .error err)
    | none =>
      if tx.work.steps_id_seq + values.length > maxInt64 + 1 then
        ({ tx with aborted := true, stmts := stmts }, .ok ⟨[], some .IdExhausted⟩)
      else
        let (work, result) := tx.work.insertSteps now values
        ({ tx with work := work, aborted := tx.aborted || iterFault.isSome, stmts := stmts },
         .ok (mkRows result scanFault iterFault))

/-! ## The store (`internal/model/pg/pg_store.go`) -/

/-- The environment of one `CreateSequence` call: the time, and for each pgx
call whether it fails (with which code, for the scan of the sequence row at
which column, and for cursors at which row). -/
structure CreateEnv where
  now : Nat
  beginFault : Option Nat
  insertSequenceFault : Option Nat
  scanSequenceFault : Option (Nat × Nat)
  queryStepsFault : Option Nat
  scanStepFault : Option (Nat × Nat)
  stepRowsFault : Option (Nat × Nat)
  commitFault : Option Nat
  deriving DecidableEq, Repr

/-- An environment in which no call fails. -/
def CreateEnv.ok (now : Nat) : CreateEnv :=
  ⟨now, none, none, none, none, none, none, none⟩

/-- What `CreateSequence` leaves behind: the returned error, the database, the
caller's `*Sequence` after the call, and the statements sent on the
transaction. -/
structure CreateResult where
  err : Option StoreError
  db : DB
  sequence : Sequence
  stmts : List Stmt

/-- The `Step` of lines 78-84: `SequenceID` is `sequence.ID`, the other fields
are scanned from the `RETURNING id, subject, content, created_at, updated_at`
columns of the row. -/
def insertedStep (sequenceID : Nat) (row : StepRow) : Step :=
  { ID := row.id, SequenceID := sequenceID, Subject := row.subject, Content := row.content,
    CreatedAt := row.created_at, UpdatedAt := row.updated_at }

/-- The `for rows.Next()` loop of `CreateSequence` (lines 76-89): every row is
scanned into a fresh `Step` and appended to `inserted`; a failing `Scan`
returns its error. -/
def scanInserted (sequenceID : Nat) :
    List (Except StoreError StepRow) → Slice Step → Except StoreError (Slice Step)
  | [], inserted => .ok inserted
  | .error err :: _, _ => .error err
  | .ok row :: rest, inserted =>
    scanInserted sequenceID rest (inserted.append (insertedStep sequenceID row))

/-- The `VALUES` list built by the loop of lines 62-64. -/
def stepValues (sequenceID : Nat) (steps : List Step) : List (Nat × String × String) :=
  steps.map (fun step => (sequenceID, step.Subject, step.Content))

/-- Go method `PGStore.CreateSequence` (lines 32-94).  The deferred `tx.Rollback` acts on
every return after `Begin`; after a `Commit` it finds the transaction closed. -/
def CreateSequence (db : DB) (env : CreateEnv) (sequence : Sequence) : CreateResult :=
  match Begin db env.beginFault with
  | .error err => ⟨some err, db, sequence, []⟩
  | .ok tx =>
    match tx.queryRowInsertSequence env.now sequence.Name sequence.OpenTrackingEnabled
        sequence.ClickTrackingEnabled env.insertSequenceFault env.scanSequenceFault
        (sequence.ID, sequence.CreatedAt, sequence.UpdatedAt) with
    | (tx, some err, (id, createdAt, updatedAt)) =>
      ⟨some err, tx.Rollback,
       { sequence with ID := id, CreatedAt := createdAt, UpdatedAt := updatedAt }, tx.stmts⟩
    | (tx, none, (id, createdAt, updatedAt)) =>
      let sequence := { sequence with ID := id, CreatedAt := createdAt, UpdatedAt := updatedAt }
      if sequence.Steps.len > 0 then
        match tx.queryInsertSteps env.now (stepValues sequence.ID sequence.Steps.toList)
            env.queryStepsFault env.scanStepFault env.stepRowsFault with
        | (tx, .error err) => ⟨some err, tx.Rollback, sequence, tx.stmts⟩
        | (tx, .ok rows) =>
          match scanInserted sequence.ID rows.pending Slice.nil with
          | .error err => ⟨some err, tx.Rollback, sequence, tx.stmts⟩
          | .ok inserted =>
            let sequence := { sequence with Steps := inserted }
            let (db, err) := tx.Commit env.commitFault
            ⟨err, db, sequence, tx.stmts⟩
      else
        let (db, err) := tx.Commit env.commitFault
        ⟨err, db, sequence, tx.stmts⟩

/-- The environment of one `FetchSequence` call. -/
structure FetchEnv where
  selectSequenceFault : Option Nat
  scanSequenceFault : Option Nat
  queryStepsFault : Option Nat
  scanStepFault : Option (Nat × Nat)
  stepRowsFault : Option (Nat × Nat)
  deriving DecidableEq, Repr

/-- An environment in which no call fails. -/
def FetchEnv.ok : FetchEnv := ⟨none, none, none, none, none⟩

/-- Call `pool.QueryRow(ctx, <select from sequences>).Scan(..)`. -/
def DB.queryRowSelectSequence (db : DB) (id : Nat) (execFault scanFault : Option Nat) :
    Except StoreError SequenceRow :=
  match execFault with
  | some code => .error (.Storage code)
  | none =>
    match encodeArgs [id] with
    | some err => .error err
    | none => scanRow (db.selectSequence id) scanFault

/-- Call `pool.Query(ctx, <select from steps>)`. -/
def DB.querySelectSteps (db : DB) (id : Nat) (queryFault : Option Nat)
    (scanFault iterFault : Option (Nat × Nat)) : Except StoreError (Rows StepRow) :=
  match queryFault with
  | some code => .error (.Storage code)
  | none =>
    match encodeArgs [id] with
    | some err => .error err
    | none => .ok (mkRows (db.selectSteps id) scanFault iterFault)

/-- The `Step` of lines 148-155: all six columns are scanned from the row. -/
def fetchedStep (row : StepRow) : Step :=
  { ID := row.id, SequenceID := row.sequence_id, Subject := row.subject,
    Content := row.content, CreatedAt := row.created_at, UpdatedAt := row.updated_at }

/-- The `for rows.Next()` loop of `FetchSequence` (lines 147-160): every row is
scanned into a `Step` and appended to `sequence.Steps`; a failing `Scan`
returns its error. -/
def scanSteps : List (Except StoreError StepRow) → Slice Step → Except StoreError (Slice Step)
  | [], steps => .ok steps
  | .error err :: _, _ => .error err
  | .ok row :: rest, steps => scanSteps rest (steps.append (fetchedStep row))

/-- Go method `PGStore.FetchSequence` (lines 96-163): the returned pointer (`none` is
nil) and the returned error. -/
def FetchSequence (db : DB) (env : FetchEnv) (id : Nat) : Option Sequence × Option StoreError :=
  match db.queryRowSelectSequence id env.selectSequenceFault env.scanSequenceFault with
  | .error err => (none, some err)
  | .ok row =>
    let sequence : Sequence :=
      { ID := row.id, Name := row.name, OpenTrackingEnabled := row.open_tracking_enabled,
        ClickTrackingEnabled := row.click_tracking_enabled, CreatedAt := row.created_at,
        UpdatedAt := row.updated_at, Steps := Slice.nil }
    match db.querySelectSteps id env.queryStepsFault env.scanStepFault env.stepRowsFault with
    | .error err => (none, some err)
    | .ok rows =>
      match scanSteps rows.pending sequence.Steps with
      | .error err => (none, some err)
      | .ok steps => (some { sequence with Steps := steps }, none)

/-- The environment of a single-statement operation: the time, whether the
statement fails, and whether the `Scan` of the returned row fails (at which
column, with which code). -/
structure StmtEnv where
  now : Nat
  execFault : Option Nat
  scanFault : Option (Nat × Nat)
  deriving DecidableEq, Repr

/-- An environment in which no call fails. -/
def StmtEnv.ok (now : Nat) : StmtEnv := ⟨now, none, none⟩

/-- Go method `PGStore.UpdateSequence` (lines 165-187): the returned error, the database
after the call, and the caller's `*Sequence` after the call. -/
def UpdateSequence (db : DB) (env : StmtEnv) (id : Nat) (sequence : Sequence) :
    Option StoreError × DB × Sequence :=
  match env.execFault with
  | some code => (some (.Storage code), db, sequence)
  | none =>
    match encodeArgs [id] with
    | some err => (some err, db, sequence)
    | none =>
      let (db, result) := db.updateSequence env.now id sequence.OpenTrackingEnabled
        sequence.ClickTrackingEnabled
      match scanInto result env.scanFault
          (sequence.ID, sequence.CreatedAt, sequence.UpdatedAt) with
      | (err, (rid, createdAt, updatedAt)) =>
        (err, db, { sequence with ID := rid, CreatedAt := createdAt, UpdatedAt := updatedAt })

/-- Go method `PGStore.UpdateStep` (lines 189-211). -/
def UpdateStep (db : DB) (env : StmtEnv) (id : Nat) (step : Step) :
    Option StoreError × DB × Step :=
  match env.execFault with
  | some code => (some (.Storage code), db, step)
  | none =>
    match encodeArgs [id, step.SequenceID] with
    | some err => (some err, db, step)
    | none =>
      let (db, result) := db.updateStep env.now id step.SequenceID step.Subject step.Content
      match scanInto result env.scanFault (step.ID, step.CreatedAt, step.UpdatedAt) with
      | (err, (rid, createdAt, updatedAt)) =>
        (err, db, { step with ID := rid, CreatedAt := createdAt, UpdatedAt := updatedAt })

/-- Call `pool.Exec(ctx, <delete from steps>)`: the error it returns, or the
database after the statement with the number of rows affected. -/
def DB.execDeleteStep (db : DB) (fault : Option Nat) (id sequenceID : Nat) :
    Except StoreError (DB × Nat) :=
  match fault with
  | some code => .error (.Storage code)
  | none =>
    match encodeArgs [id, sequenceID] with
    | some err => .error err
    | none => .ok (db.deleteStep id sequenceID)

/-- Go method `PGStore.DeleteStep` (lines 213-231): `pool.Exec`, then the test of
`cmd.RowsAffected()`. -/
def DeleteStep (db : DB) (env : StmtEnv) (id : Nat) (step : Step) : Option StoreError × DB :=
  match db.execDeleteStep env.execFault id step.SequenceID with
  | .error err => (some err, db)
  | .ok (db, rowsAffected) =>
    if rowsAffected = 0 then (some .ErrNoRows, db)
    else (none, db)

/-! ## The HTTP layer (`internal/app/routes.go`) -/

/-- The error of `strconv.ParseUint`: `ErrSyntax` or `ErrRange`. -/
inductive NumError where
  | ErrSyntax : NumError
  | ErrRange : NumError
  deriving DecidableEq, Repr

/-- The largest `uint64`. -/
def maxUint64 : Nat := 2 ^ 64 - 1

/-- The `cutoff` of `ParseUint` for base 10: the smallest number whose product
with 10 exceeds `maxUint64`. -/
def cutoff : Nat := maxUint64 / 10 + 1

/-- The helper `lower` of `strconv`: `c | ('x' - 'X')`. -/
def lower (c : Nat) : Nat := c ||| 32

/-- The digit loop of `strconv.ParseUint(s, 10, 64)`, with `n` the `uint64`
accumulated so far.  The string is read character by character; a non-ASCII
character is rejected like the bytes that encode it. -/
def parseUintLoop : List Char → Nat → Except NumError Nat
  | [], n => .ok n
  | c :: rest, n =>
    let b := c.toNat
    let digit : Option Nat :=
      if 48 ≤ b ∧ b ≤ 57 then some (b - 48)
      else if 97 ≤ lower b ∧ lower b ≤ 122 then some (lower b - 97 + 10)
      else none
    match digit with
    | none => .error .ErrSyntax
    | some d =>
      if d ≥ 10 then .error .ErrSyntax
      else if n ≥ cutoff then .error .ErrRange
      else
        let m := (n * 10) % 2 ^ 64
        let n1 := (m + d) % 2 ^ 64
        if n1 < m ∨ n1 > maxUint64 then .error .ErrRange
        else parseUintLoop rest n1

/-- The call `strconv.ParseUint(s, 10, 64)`. -/
def ParseUint (s : String) : Except NumError Nat :=
  if s.toList = [] then .error .ErrSyntax
  else parseUintLoop s.toList 0

/-- The value of a string of decimal digits, read as a base-10 numeral. -/
def decimalValue (cs : List Char) : Nat :=
  cs.foldl (fun acc c => acc * 10 + (c.toNat - 48)) 0

/-- A string is a base-10 text of an unsigned 64-bit integer: it is not
empty, it consists of the digits `0` to `9`, and its value is below `2 ^ 64`. -/
def IsBase10Uint64 (raw : String) : Prop :=
  raw.toList ≠ [] ∧ (∀ c ∈ raw.toList, 48 ≤ c.toNat ∧ c.toNat ≤ 57) ∧
  decimalValue raw.toList < 2 ^ 64

instance (raw : String) : Decidable (IsBase10Uint64 raw) := by
  unfold IsBase10Uint64
  infer_instance

/-- The message of `ErrResourceNotFound`. -/
def ErrResourceNotFound : String := "resource not found"

/-- The message of `ErrResourceCreationFailed`. -/
def ErrResourceCreationFailed : String := "resource creation failed"

/-- The message of `ErrResourceFetchingFailed`. -/
def ErrResourceFetchingFailed : String := "resource fetching failed"

/-- The message of `ErrResourceUpdateFailed`. -/
def ErrResourceUpdateFailed : String := "resource update failed"

/-- The message of `ErrResourceDeletionFailed`. -/
def ErrResourceDeletionFailed : String := "resource deletion failed"

/-- The Go struct `CreateStepRequest`. -/
structure CreateStepRequest where
  Subject : String
  Content : String
  deriving DecidableEq, Repr

/-- The Go struct `CreateSequenceRequest`. -/
structure CreateSequenceRequest where
  Name : String
  OpenTrackingEnabled : Bool
  ClickTrackingEnabled : Bool
  Steps : Slice CreateStepRequest
  deriving DecidableEq, Repr

/-- The Go struct `UpdateSequenceRequest`. -/
structure UpdateSequenceRequest where
  OpenTrackingEnabled : Bool
  ClickTrackingEnabled : Bool
  deriving DecidableEq, Repr

/-- The Go struct `UpdateSequenceResponse`. -/
structure UpdateSequenceResponse where
  ID : Nat
  OpenTrackingEnabled : Bool
  ClickTrackingEnabled : Bool
  UpdatedAt : Nat
  deriving DecidableEq, Repr

/-- The Go struct `UpdateStepRequest`. -/
structure UpdateStepRequest where
  Subject : String
  Content : String
  deriving DecidableEq, Repr

/-- The validation asked by the tags of `CreateStepRequest`: both fields are
`required`, which a string meets when it is not empty. -/
def CreateStepRequest.valid (r : CreateStepRequest) : Bool :=
  r.Subject ≠ "" && r.Content ≠ ""

/-- The validation asked by the tags of `CreateSequenceRequest`: `Name` is
`required`; `Steps` is `required`, which a slice meets when it is not nil, and
`dive` validates every element. -/
def CreateSequenceRequest.valid (r : CreateSequenceRequest) : Bool :=
  r.Name ≠ "" && r.Steps ≠ Slice.nil && r.Steps.toList.all CreateStepRequest.valid

/-- The validation asked by the tags of `UpdateSequenceRequest`: none. -/
def UpdateSequenceRequest.valid (_ : UpdateSequenceRequest) : Bool := true

/-- The validation asked by the tags of `UpdateStepRequest`: both fields are
`required`. -/
def UpdateStepRequest.valid (r : UpdateStepRequest) : Bool :=
  r.Subject ≠ "" && r.Content ≠ ""

/-- What a handler reads from its `*gin.Context`: the path parameters, and the
request body as decoded from JSON into the request struct of the handler.
`body = none` is a body that does not decode; a key that is absent from the
JSON object, or null, leaves the Go zero value in its field. -/
structure Context (α : Type) where
  Param : String → String
  body : Option α

/-- The call `c.ShouldBindJSON(&data)`: decoding, then validation by the tags;
`none` is a non-nil error. -/
def ShouldBindJSON {α : Type} (c : Context α) (valid : α → Bool) : Option α :=
  match c.body with
  | none => none
  | some data => if valid data then some data else none

/-- A store behind the interface `model.SequenceStore`.  A method that
mutates its pointer argument returns the value after the call. -/
structure SequenceStore where
  CreateSequence : Sequence → Option StoreError × Sequence
  FetchSequence : Nat → Option Sequence × Option StoreError
  UpdateSequence : Nat → Sequence → Option StoreError × Sequence
  UpdateStep : Nat → Step → Option StoreError × Step
  DeleteStep : Nat → Step → Option StoreError

/-- A call of a store method with its arguments. -/
inductive StoreCall where
  | CreateSequence (sequence : Sequence) : StoreCall
  | FetchSequence (id : Nat) : StoreCall
  | UpdateSequence (id : Nat) (sequence : Sequence) : StoreCall
  | UpdateStep (id : Nat) (step : Step) : StoreCall
  | DeleteStep (id : Nat) (step : Step) : StoreCall
  deriving DecidableEq, Repr

/-- The JSON written by a handler: `gin.H{"error": msg}` for a fixed message,
the same object carrying the text of a binding error, a sequence (`none` is a
nil pointer), an `UpdateSequenceResponse`, a step, or nothing. -/
inductive Payload where
  | error (msg : String) : Payload
  | bindingError : Payload
  | sequence (s : Option Sequence) : Payload
  | updateSequence (r : UpdateSequenceResponse) : Payload
  | step (s : Step) : Payload
  | empty : Payload
  deriving DecidableEq, Repr

/-- The HTTP response of a handler. -/
structure Response where
  status : Nat
  payload : Payload
  deriving DecidableEq, Repr

/-- The effect of a handler: its response and the store calls it made. -/
structure Handled where
  response : Response
  calls : List StoreCall
  deriving DecidableEq, Repr

/-- The test `errors.Is(err, target)` on the errors of the store, none of
which wraps another. -/
def errorsIs (err target : StoreError) : Bool := err = target

/-- Go function `fetchResourceID` (lines 193-201): the parsed id, or the
response written on a parse error. -/
def fetchResourceID {α : Type} (c : Context α) (param errorMessage : String) :
    Except Response Nat :=
  let raw := c.Param param
  match ParseUint raw with
  | .error _ => .error ⟨400, .error errorMessage⟩
  | .ok id => .ok id

/-- Go method `Service.createSequence` (lines 35-62). -/
def createSequence (store : SequenceStore) (c : Context CreateSequenceRequest) : Handled :=
  match ShouldBindJSON c CreateSequenceRequest.valid with
  | none => ⟨⟨400, .bindingError⟩, []⟩
  | some data =>
    let sequence : Sequence :=
      { ID := 0, Name := data.Name, OpenTrackingEnabled := data.OpenTrackingEnabled,
        ClickTrackingEnabled := data.ClickTrackingEnabled, CreatedAt := 0, UpdatedAt := 0,
        Steps := Slice.mk (data.Steps.toList.map
          (fun step => ⟨0, 0, step.Subject, step.Content, 0, 0⟩)) }
    match store.CreateSequence sequence with
    | (some _, _) =>
      ⟨⟨500, .error ErrResourceCreationFailed⟩, [StoreCall.CreateSequence sequence]⟩
    | (none, created) =>
      ⟨⟨201, .sequence (some created)⟩, [StoreCall.CreateSequence sequence]⟩

/-- Go method `Service.fetchSequence` (lines 64-82). -/
def fetchSequence (store : SequenceStore) (c : Context Unit) : Handled :=
  match fetchResourceID c "id" "Invalid sequence ID" with
  | .error resp => ⟨resp, []⟩
  | .ok id =>
    match store.FetchSequence id with
    | (_, some err) =>
      if errorsIs err .ErrNoRows then
        ⟨⟨404, .error ErrResourceNotFound⟩, [StoreCall.FetchSequence id]⟩
      else
        ⟨⟨500, .error ErrResourceFetchingFailed⟩, [StoreCall.FetchSequence id]⟩
    | (sequence, none) => ⟨⟨200, .sequence sequence⟩, [StoreCall.FetchSequence id]⟩

/-- Go method `Service.updateSequence` (lines 96-128). -/
def updateSequence (store : SequenceStore) (c : Context UpdateSequenceRequest) : Handled :=
  match fetchResourceID c "id" "Invalid sequence ID" with
  | .error resp => ⟨resp, []⟩
  | .ok id =>
    match ShouldBindJSON c UpdateSequenceRequest.valid with
    | none => ⟨⟨400, .bindingError⟩, []⟩
    | some data =>
      let sequence : Sequence :=
        { ID := 0, Name := "", OpenTrackingEnabled := data.OpenTrackingEnabled,
          ClickTrackingEnabled := data.ClickTrackingEnabled, CreatedAt := 0, UpdatedAt := 0,
          Steps := Slice.nil }
      match store.UpdateSequence id sequence with
      | (some err, _) =>
        if errorsIs err .ErrNoRows then
          ⟨⟨404, .error ErrResourceNotFound⟩, [StoreCall.UpdateSequence id sequence]⟩
        else
          ⟨⟨500, .error ErrResourceUpdateFailed⟩, [StoreCall.UpdateSequence id sequence]⟩
      | (none, updated) =>
        ⟨⟨200, .updateSequence ⟨updated.ID, updated.OpenTrackingEnabled,
            updated.ClickTrackingEnabled, updated.UpdatedAt⟩⟩,
         [StoreCall.UpdateSequence id sequence]⟩

/-- Go method `Service.updateStep` (lines 135-167). -/
def updateStep (store : SequenceStore) (c : Context UpdateStepRequest) : Handled :=
  match fetchResourceID c "id" "Invalid sequence ID" with
  | .error resp => ⟨resp, []⟩
  | .ok sequenceID =>
    match fetchResourceID c "step_id" "Invalid step ID" with
    | .error resp => ⟨resp, []⟩
    | .ok id =>
      match ShouldBindJSON c UpdateStepRequest.valid with
      | none => ⟨⟨400, .bindingError⟩, []⟩
      | some data =>
        let step : Step :=
          { ID := 0, SequenceID := sequenceID, Subject := data.Subject,
            Content := data.Content, CreatedAt := 0, UpdatedAt := 0 }
        match store.UpdateStep id step with
        | (some err, _) =>
          if errorsIs err .ErrNoRows then
            ⟨⟨404, .error ErrResourceNotFound⟩, [StoreCall.UpdateStep id step]⟩
          else
            ⟨⟨500, .error ErrResourceUpdateFailed⟩, [StoreCall.UpdateStep id step]⟩
        | (none, updated) => ⟨⟨200, .step updated⟩, [StoreCall.UpdateStep id step]⟩

/-- Go method `Service.deleteStep` (lines 169-191). -/
def deleteStep (store : SequenceStore) (c : Context Unit) : Handled :=
  match fetchResourceID c "id" "Invalid sequence ID" with
  | .error resp => ⟨resp, []⟩
  | .ok sequenceID =>
    match fetchResourceID c "step_id" "Invalid step ID" with
    | .error resp => ⟨resp, []⟩
    | .ok id =>
      let step : Step :=
        { ID := 0, SequenceID := sequenceID, Subject := "", Content := "",
          CreatedAt := 0, UpdatedAt := 0 }
      match store.DeleteStep id step with
      | some err =>
        if errorsIs err .ErrNoRows then
          ⟨⟨404, .error ErrResourceNotFound⟩, [StoreCall.DeleteStep id step]⟩
        else
          ⟨⟨500, .error ErrResourceDeletionFailed⟩, [StoreCall.DeleteStep id step]⟩
      | none => ⟨⟨204, .empty⟩, [StoreCall.DeleteStep id step]⟩

/-- The response asked of a handler for a store outcome: the success response
when there is no error, 404 with the not-found message when the error is the
no-rows error, 500 with the generic failure message of the operation for
every other error. -/
def outcomeResponse (err : Option StoreError) (success : Response) (failure : String) :
    Response :=
  match err with
  | none => success
  | some .ErrNoRows => ⟨404, .error "resource not found"⟩
  | some _ => ⟨500, .error failure⟩

/-- The `PGStore` over database `db` as a `model.SequenceStore`, for handlers
that make a single call: every method runs on `db` in the given environment. -/
def pgStore (db : DB) (cenv : CreateEnv) (fenv : FetchEnv) (senv : StmtEnv) : SequenceStore :=
  { CreateSequence := fun sequence =>
      ((CreateSequence db cenv sequence).err, (CreateSequence db cenv sequence).sequence),
    FetchSequence := fun id => FetchSequence db fenv id,
    UpdateSequence := fun id sequence =>
      ((UpdateSequence db senv id sequence).1, (UpdateSequence db senv id sequence).2.2),
    UpdateStep := fun id step =>
      ((UpdateStep db senv id step).1, (UpdateStep db senv id step).2.2),
    DeleteStep := fun id step => (DeleteStep db senv id step).1 }

/-- The path parameters of `/sequences/<id>/steps/<step_id>`. -/
def pathParams (id stepID : String) : String → String :=
  fun name => if name = "id" then id else if name = "step_id" then stepID else ""

/-! ## Sample data -/

/-- The value `testSequence` of `pg_store_test.go`. -/
def testSequence : Sequence :=
  { ID := 0, Name := "Test Sequence", OpenTrackingEnabled := true, ClickTrackingEnabled := true,
    CreatedAt := 0, UpdatedAt := 0,
    Steps := .mk [⟨0, 0, "Step 1 Subject", "Step 1 Content", 0, 0⟩,
                  ⟨0, 0, "Step 2 Subject", "Step 2 Content", 0, 0⟩] }

/-- A database as left by `cleanDB`: empty tables, generators at some value. -/
def emptyDB : DB := ⟨[], [], 1, 1⟩

/-- A database holding one sequence with two steps. -/
def sampleDB : DB :=
  { sequences := [⟨1, "Welcome", true, false, 10, 10⟩],
    steps := [⟨1, 1, "Hello", "First mail", 10, 10⟩, ⟨2, 1, "Again", "Second mail", 10, 10⟩],
    sequences_id_seq := 2,
    steps_id_seq := 3 }

/-- A database whose two steps of sequence 1 are stored in descending id order,
next to a step of another sequence. -/
def shuffledDB : DB :=
  { sequences := [⟨1, "Welcome", true, false, 10, 10⟩, ⟨2, "Other", false, false, 11, 11⟩],
    steps := [⟨5, 1, "Again", "Second mail", 12, 12⟩, ⟨4, 2, "Else", "Other mail", 11, 11⟩,
              ⟨3, 1, "Hello", "First mail", 10, 10⟩],
    sequences_id_seq := 3,
    steps_id_seq := 6 }

/-- A database holding one sequence and no step. -/
def lonelyDB : DB :=
  { sequences := [⟨1, "Welcome", true, false, 10, 10⟩],
    steps := [],
    sequences_id_seq := 2,
    steps_id_seq := 1 }

/-! ## Lemmas on the backend model -/

theorem markScan_none {α : Type} (l : List α) :
    markScan none l = l.map Except.ok := by
  induction l with
  | nil => rfl
  | cons a l ih => simp [markScan, ih]

/-- A `CreateSequence` scan loop that ends without error has seen every row. -/
theorem scanInserted_ok (sid : Nat) (l : List StepRow) :
    ∀ (f : Option (Nat × Nat)) (acc out : Slice Step),
      scanInserted sid (markScan f l) acc = .ok out →
      out = (if l = [] then acc else Slice.mk (acc.toList ++ l.map (insertedStep sid))) := by
  induction l with
  | nil =>
    intro f acc out h
    cases f <;> simp [markScan, scanInserted] at h <;> simp [h]
  | cons a l ih =>
    intro f acc out h
    rcases f with _ | ⟨k, code⟩
    · simp only [markScan, scanInserted] at h
      have := ih none _ _ h
      rw [this]
      by_cases hl : l = [] <;> simp [hl, Slice.append, Slice.toList]
    · cases k with
      | zero => simp [markScan, scanInserted] at h
      | succ k =>
        simp only [markScan, scanInserted] at h
        have := ih _ _ _ h
        rw [this]
        by_cases hl : l = [] <;> simp [hl, Slice.append, Slice.toList]

theorem newStepRows_length (now : Nat) (vs : List (Nat × String × String)) :
    ∀ next, (newStepRows now next vs).length = vs.length := by
  induction vs with
  | nil => intro next; rfl
  | cons v vs ih =>
    intro next
    obtain ⟨sid, subject, content⟩ := v
    simp [newStepRows, ih]

theorem encodeArgs_eq_none (l : List Nat) :
    encodeArgs l = none ↔ ∀ v ∈ l, v ≤ maxInt64 := by
  induction l with
  | nil => simp [encodeArgs]
  | cons a l ih =>
    by_cases ha : a > maxInt64
    · simp only [encodeArgs, ha, if_true, List.mem_cons, forall_eq_or_imp]
      constructor
      · intro h; cases h
      · intro h; omega
    · simp only [encodeArgs, ha, if_false, ih, List.mem_cons, forall_eq_or_imp]
      constructor
      · intro h; exact ⟨Nat.le_of_not_gt ha, h⟩
      · intro h; exact h.2

theorem encodeArgs_stepValues (sid : Nat) (steps : List Step) (h : sid ≤ maxInt64) :
    encodeArgs ((stepValues sid steps).map (fun v => v.1)) = none := by
  rw [encodeArgs_eq_none]
  intro v hv
  simp only [stepValues, List.map_map, List.mem_map, Function.comp] at hv
  obtain ⟨st, -, rfl⟩ := hv
  exact h

/-- Shape of a successful `CreateSequence`: the database and the caller's value
after the call. -/
theorem CreateSequence_ok (db : DB) (env : CreateEnv) (s : Sequence)
    (h : (CreateSequence db env s).err = none) :
    (CreateSequence db env s).db =
      { sequences := db.sequences ++
          [⟨db.sequences_id_seq, s.Name, s.OpenTrackingEnabled, s.ClickTrackingEnabled,
            env.now, env.now⟩],
        steps := db.steps ++
          newStepRows env.now db.steps_id_seq (stepValues db.sequences_id_seq s.Steps.toList),
        sequences_id_seq := db.sequences_id_seq + 1,
        steps_id_seq := db.steps_id_seq + s.Steps.len } ∧
    (CreateSequence db env s).sequence =
      { s with
        ID := db.sequences_id_seq, CreatedAt := env.now, UpdatedAt := env.now,
        Steps := if s.Steps.len > 0 then
            Slice.mk ((newStepRows env.now db.steps_id_seq
              (stepValues db.sequences_id_seq s.Steps.toList)).map
                (insertedStep db.sequences_id_seq))
          else s.Steps } ∧
    (CreateSequence db env s).stmts =
      (if s.Steps.len > 0 then [Stmt.insertSequence, Stmt.insertSteps s.Steps.len]
       else [Stmt.insertSequence]) := by
  obtain ⟨now, bf, isf, ssf, qsf, scf, rf, cf⟩ := env
  rcases bf with _ | bf
  swap
  · simp [CreateSequence, Begin] at h
  rcases isf with _ | isf
  swap
  · simp [CreateSequence, Begin, Tx.queryRowInsertSequence] at h
  by_cases hgen : db.sequences_id_seq > maxInt64
  · simp [CreateSequence, Begin, Tx.queryRowInsertSequence, hgen] at h
  rcases ssf with _ | ⟨k, code⟩
  swap
  · rcases k with _ | _ | k <;>
      simp [CreateSequence, Begin, Tx.queryRowInsertSequence, DB.insertSequence, scanInto,
        hgen] at h
  by_cases hlen : s.Steps.len > 0
  · rcases qsf with _ | qsf
    swap
    · simp [CreateSequence, Begin, Tx.queryRowInsertSequence, DB.insertSequence, scanInto, hlen,
        hgen, Tx.queryInsertSteps] at h
    have henc : encodeArgs ((stepValues db.sequences_id_seq s.Steps.toList).map
        (fun v => v.1)) = none :=
      encodeArgs_stepValues _ _ (Nat.le_of_not_gt hgen)
    have hvl : (stepValues db.sequences_id_seq s.Steps.toList).length = s.Steps.len := by
      simp [stepValues, Slice.len]
    by_cases hex : db.steps_id_seq + s.Steps.len > maxInt64 + 1
    · rcases cf with _ | cf <;>
        simp [CreateSequence, Begin, Tx.queryRowInsertSequence, DB.insertSequence, scanInto,
          hlen, hgen, Tx.queryInsertSteps, henc, hvl, hex, scanInserted, Tx.Commit] at h
    simp only [CreateSequence, Begin, Tx.queryRowInsertSequence, DB.insertSequence, scanInto,
        hlen, hgen, Tx.queryInsertSteps, henc, hvl, hex, DB.insertSteps, if_true, if_false]
        at h ⊢
    have hne : newStepRows now db.steps_id_seq
        (stepValues db.sequences_id_seq s.Steps.toList) ≠ [] := by
      intro h0
      have h1 := newStepRows_length now (stepValues db.sequences_id_seq s.Steps.toList)
        db.steps_id_seq
      rw [h0] at h1
      simp [stepValues, Slice.len] at h1 hlen
      simp [h1] at hlen
    rcases rf with _ | ⟨k, code⟩
    · simp only [mkRows] at h ⊢
      cases hscan : scanInserted db.sequences_id_seq
          (markScan scf (newStepRows now db.steps_id_seq
            (stepValues db.sequences_id_seq s.Steps.toList))) Slice.nil with
      | error e => rw [hscan] at h; simp at h
      | ok inserted =>
        rw [hscan] at h
        have hins := scanInserted_ok _ _ _ _ _ hscan
        rw [if_neg hne] at hins
        rcases cf with _ | cf
        · subst hins
          simp [Tx.Commit, Slice.toList]
        · simp [Tx.Commit] at h
    · simp only [mkRows] at h ⊢
      cases hscan : scanInserted db.sequences_id_seq
          (markScan scf ((newStepRows now db.steps_id_seq
            (stepValues db.sequences_id_seq s.Steps.toList)).take k)) Slice.nil with
      | error e => rw [hscan] at h; simp at h
      | ok inserted =>
        rw [hscan] at h
        rcases cf with _ | cf <;> simp [Tx.Commit] at h
  · simp only [CreateSequence, Begin, Tx.queryRowInsertSequence, DB.insertSequence, scanInto,
        hlen, hgen, if_false] at h ⊢
    rcases cf with _ | cf
    · have h0 : s.Steps.toList = [] := by
        simpa [Slice.len] using hlen
      simp [Tx.Commit, stepValues, newStepRows, h0, Slice.len]
    · simp [Tx.Commit] at h

theorem Slice.toList_collect {α : Type} (l : List α) : (Slice.collect l).toList = l := by
  cases l <;> rfl

/-- The fault-free `FetchSequence` scan loop appends every row. -/
theorem scanSteps_ok (l : List StepRow) :
    ∀ acc : Slice Step, scanSteps (l.map Except.ok) acc =
      .ok (if l = [] then acc else Slice.mk (acc.toList ++ l.map fetchedStep)) := by
  induction l with
  | nil => intro acc; simp [scanSteps]
  | cons a l ih =>
    intro acc
    simp only [List.map_cons, scanSteps, ih]
    by_cases hl : l = [] <;> simp [hl, Slice.append, Slice.toList]

theorem encodeArgs_single {id : Nat} (h : id ≤ maxInt64) : encodeArgs [id] = none := by
  rw [encodeArgs_eq_none]
  intro v hv
  simp only [List.mem_singleton] at hv
  omega

theorem encodeArgs_pair {a b : Nat} (ha : a ≤ maxInt64) (hb : b ≤ maxInt64) :
    encodeArgs [a, b] = none := by
  rw [encodeArgs_eq_none]
  intro v hv
  simp only [List.mem_cons, List.mem_singleton, List.not_mem_nil, or_false] at hv
  omega

/-- Fault-free `FetchSequence` on an id that cannot be encoded. -/
theorem FetchSequence_unencodable (db : DB) (id : Nat) (h : maxInt64 < id) :
    FetchSequence db FetchEnv.ok id = (none, some (StoreError.Encoding id)) := by
  simp [FetchSequence, FetchEnv.ok, DB.queryRowSelectSequence, encodeArgs, h]

/-- A fault-free `FetchSequence` that returns a sequence was given an id that
can be encoded. -/
theorem FetchSequence_some_le (db : DB) (id : Nat) (s : Sequence)
    (h : FetchSequence db FetchEnv.ok id = (some s, none)) : id ≤ maxInt64 := by
  by_contra hid
  rw [FetchSequence_unencodable db id (Nat.lt_of_not_le hid)] at h
  simp at h

/-- Fault-free `FetchSequence` on an id that has no row. -/
theorem FetchSequence_absent (db : DB) (id : Nat) (hid : id ≤ maxInt64)
    (h : db.selectSequence id = []) :
    FetchSequence db FetchEnv.ok id = (none, some StoreError.ErrNoRows) := by
  simp [FetchSequence, FetchEnv.ok, DB.queryRowSelectSequence, encodeArgs_single hid, h,
    scanRow]

/-- Fault-free `FetchSequence` on an id that has a row: the first matching row,
with the selected step rows attached in the order of the query. -/
theorem FetchSequence_present (db : DB) (id : Nat) (row : SequenceRow) (rest : List SequenceRow)
    (hid : id ≤ maxInt64) (h : db.selectSequence id = row :: rest) :
    FetchSequence db FetchEnv.ok id =
      (some { ID := row.id, Name := row.name, OpenTrackingEnabled := row.open_tracking_enabled,
              ClickTrackingEnabled := row.click_tracking_enabled, CreatedAt := row.created_at,
              UpdatedAt := row.updated_at,
              Steps := Slice.collect ((db.selectSteps id).map fetchedStep) }, none) := by
  simp only [FetchSequence, FetchEnv.ok, DB.queryRowSelectSequence, encodeArgs_single hid,
    h, scanRow, DB.querySelectSteps, mkRows, markScan_none, scanSteps_ok]
  cases hs : db.selectSteps id <;> simp [Slice.collect, Slice.toList]

theorem newStepRows_ids (now sid : Nat) (steps : List Step) :
    ∀ next, (newStepRows now next (stepValues sid steps)).map (fun r => r.id) =
      List.range' next steps.length := by
  induction steps with
  | nil => intro next; rfl
  | cons st steps ih =>
    intro next
    simp [stepValues, newStepRows, List.range'] at ih ⊢
    exact ih (next + 1)

theorem newStepRows_values (now sid : Nat) (steps : List Step) :
    ∀ next, (newStepRows now next (stepValues sid steps)).map
        (fun r => (r.sequence_id, r.subject, r.content)) = stepValues sid steps := by
  induction steps with
  | nil => intro next; rfl
  | cons st steps ih =>
    intro next
    simp [stepValues, newStepRows] at ih ⊢
    exact ih (next + 1)

theorem newStepRows_sequence_id (now sid : Nat) (steps : List Step) :
    ∀ next, ∀ r ∈ newStepRows now next (stepValues sid steps), r.sequence_id = sid := by
  induction steps with
  | nil => intro next r hr; simp [stepValues, newStepRows] at hr
  | cons st steps ih =>
    intro next r hr
    simp only [stepValues, List.map_cons, newStepRows, List.mem_cons] at hr
    rcases hr with rfl | hr
    · rfl
    · exact ih (next + 1) r hr

theorem newStepRows_sorted (now sid : Nat) (steps : List Step) (next : Nat) :
    (newStepRows now next (stepValues sid steps)).Sorted (fun a b => a.id ≤ b.id) := by
  have h := List.pairwise_le_range' next steps.length
  rw [← newStepRows_ids now sid steps next, List.pairwise_map] at h
  exact h

/-- In a well-formed database the id about to be drawn for a sequence is
used neither by a sequence row nor as the reference of a step row. -/
theorem DB.WF.fresh_sequence_id {db : DB} (hwf : db.WF) :
    db.sequences.filter (fun r => r.id = db.sequences_id_seq) = [] ∧
    db.steps.filter (fun r => r.sequence_id = db.sequences_id_seq) = [] := by
  obtain ⟨hs, -, -, -, hfk, -, -⟩ := hwf
  constructor
  · rw [List.filter_eq_nil_iff]
    intro r hr
    have := hs r hr
    simp only [decide_eq_true_eq]
    omega
  · rw [List.filter_eq_nil_iff]
    intro r hr
    obtain ⟨q, hq, hqr⟩ := hfk r hr
    have := hs q hq
    simp only [decide_eq_true_eq]
    omega

/-! ### `ORDER BY id ASC` -/

theorem orderByID_perm (l : List StepRow) : (orderByID l).Perm l :=
  List.perm_insertionSort _ l

theorem orderByID_sorted (l : List StepRow) :
    (orderByID l).Sorted (fun a b => a.id ≤ b.id) :=
  List.sorted_insertionSort _ l

/-- A list sorted by id whose ids are pairwise different is strictly sorted. -/
theorem strict_of_sorted_nodup {l : List StepRow}
    (hs : l.Sorted (fun a b => a.id ≤ b.id)) (hnd : (l.map (fun r => r.id)).Nodup) :
    l.Pairwise (fun a b => a.id < b.id) := by
  have hne : l.Pairwise (fun a b => a.id ≠ b.id) := by
    rw [List.Nodup, List.pairwise_map] at hnd
    exact hnd
  exact (List.Pairwise.and hs hne).imp (fun h => Nat.lt_of_le_of_ne h.1 h.2)

theorem nodup_ids_filter {l : List StepRow} (p : StepRow → Bool)
    (hnd : (l.map (fun r => r.id)).Nodup) : ((l.filter p).map (fun r => r.id)).Nodup :=
  hnd.sublist ((List.filter_sublist l).map _)

theorem nodup_ids_perm {l₁ l₂ : List StepRow} (hp : l₁.Perm l₂)
    (hnd : (l₁.map (fun r => r.id)).Nodup) : (l₂.map (fun r => r.id)).Nodup :=
  (hp.map _).nodup_iff.mp hnd

theorem orderByID_strict {l : List StepRow} (hnd : (l.map (fun r => r.id)).Nodup) :
    (orderByID l).Pairwise (fun a b => a.id < b.id) :=
  strict_of_sorted_nodup (orderByID_sorted l) (nodup_ids_perm (orderByID_perm l).symm hnd)

/-- Two strictly id-sorted lists with the same rows are the same list. -/
theorem eq_of_perm_of_strict {l₁ l₂ : List StepRow} (hp : l₁.Perm l₂)
    (h₁ : l₁.Pairwise (fun a b => a.id < b.id)) (h₂ : l₂.Pairwise (fun a b => a.id < b.id)) :
    l₁ = l₂ :=
  List.eq_of_perm_of_sorted hp h₁ h₂

/-- With ids as keys, the result of `ORDER BY id ASC` does not depend on the
storage order. -/
theorem orderByID_congr {l₁ l₂ : List StepRow} (hp : l₁.Perm l₂)
    (hnd : (l₁.map (fun r => r.id)).Nodup) : orderByID l₁ = orderByID l₂ :=
  eq_of_perm_of_strict (((orderByID_perm l₁).trans hp).trans (orderByID_perm l₂).symm)
    (orderByID_strict hnd) (orderByID_strict (nodup_ids_perm hp hnd))

/-- The rows with the updated id after `UPDATE sequences`: the rows that had
it before, in place, with the new flags and timestamp. -/
theorem selectSequence_updateSequence (db : DB) (now id : Nat) (o c : Bool) :
    (db.updateSequence now id o c).1.selectSequence id =
      (db.selectSequence id).map
        (fun r => ⟨r.id, r.name, o, c, r.created_at, now⟩) := by
  simp only [DB.updateSequence, DB.selectSequence]
  induction db.sequences with
  | nil => rfl
  | cons a l ih =>
    by_cases ha : a.id = id
    · simp [List.filter_cons, ha, ih]
    · simp [List.filter_cons, ha, ih]

/-- The steps of a sequence after `DELETE FROM steps WHERE id = .. AND
sequence_id = ..` on that sequence: the former ones without the given id. -/
theorem selectSteps_deleteStep (db : DB) (id sid : Nat)
    (hnd : (db.steps.map (fun r => r.id)).Nodup) :
    (db.deleteStep id sid).1.selectSteps sid =
      (db.selectSteps sid).filter (fun r => r.id ≠ id) := by
  simp only [DB.deleteStep, DB.selectSteps]
  have hfil : (db.steps.filter
        (fun r => !decide (r.id = id ∧ r.sequence_id = sid))).filter
          (fun r => r.sequence_id = sid) =
      (db.steps.filter (fun r => r.sequence_id = sid)).filter (fun r => r.id ≠ id) := by
    rw [List.filter_filter, List.filter_filter]
    apply List.filter_congr
    intro r _
    by_cases h1 : r.id = id <;> by_cases h2 : r.sequence_id = sid <;> simp [h1, h2]
  have hnd' := nodup_ids_filter (fun r => decide (r.sequence_id = sid)) hnd
  apply eq_of_perm_of_strict
  · refine (orderByID_perm _).trans ?_
    rw [hfil]
    exact ((orderByID_perm (db.steps.filter (fun r => r.sequence_id = sid))).filter
      (fun r => decide (r.id ≠ id))).symm
  · apply orderByID_strict
    apply nodup_ids_filter
    exact nodup_ids_filter _ hnd
  · exact (orderByID_strict hnd').filter _

/-- Dropping the rows with a given id from an id-keyed list of rows erases the
one step fetched from that row. -/
theorem map_fetchedStep_filter_id (L : List StepRow)
    (hnd : (L.map (fun r => r.id)).Nodup) (st : Step) (hst : st ∈ L.map fetchedStep) :
    (L.filter (fun r => r.id ≠ st.ID)).map fetchedStep = (L.map fetchedStep).erase st := by
  have hM : (L.map fetchedStep).Nodup := by
    apply List.Nodup.of_map (fun x : Step => x.ID)
    rw [List.map_map]
    exact hnd
  obtain ⟨r₀, hr₀, rfl⟩ := List.mem_map.mp hst
  rw [hM.erase_eq_filter, List.filter_map]
  congr 1
  apply List.filter_congr
  intro r hr
  by_cases h : r.id = r₀.id
  · have : r = r₀ := List.inj_on_of_nodup_map hnd hr hr₀ h
    subst this
    simp [fetchedStep]
  · have hne : fetchedStep r ≠ fetchedStep r₀ := by
      intro heq
      exact h (congrArg Step.ID heq)
    simp [fetchedStep, h] at hne ⊢

/-- A `CreateSequence` that returns an error leaves both tables as they were;
the id generators may have advanced. -/
theorem CreateSequence_failed (db : DB) (env : CreateEnv) (sequence : Sequence)
    (h : (CreateSequence db env sequence).err ≠ none) :
    (CreateSequence db env sequence).db.sequences = db.sequences ∧
    (CreateSequence db env sequence).db.steps = db.steps ∧
    db.sequences_id_seq ≤ (CreateSequence db env sequence).db.sequences_id_seq ∧
    db.steps_id_seq ≤ (CreateSequence db env sequence).db.steps_id_seq ∧
    (db.sequences_id_seq ≤ maxInt64 + 1 →
      (CreateSequence db env sequence).db.sequences_id_seq ≤ maxInt64 + 1) ∧
    (db.steps_id_seq ≤ maxInt64 + 1 →
      (CreateSequence db env sequence).db.steps_id_seq ≤ maxInt64 + 1) := by
  obtain ⟨now, bf, isf, ssf, qsf, scf, rf, cf⟩ := env
  rcases bf with _ | bf
  swap
  · simp [CreateSequence, Begin]
  rcases isf with _ | isf
  swap
  · simp [CreateSequence, Begin, Tx.queryRowInsertSequence, Tx.Rollback]
  by_cases hgen : db.sequences_id_seq > maxInt64
  · simp [CreateSequence, Begin, Tx.queryRowInsertSequence, hgen, Tx.Rollback]
  rcases ssf with _ | ⟨k, code⟩
  swap
  · rcases k with _ | _ | k <;>
      (simp [CreateSequence, Begin, Tx.queryRowInsertSequence, DB.insertSequence, scanInto,
        hgen, Tx.Rollback]; try omega)
  by_cases hlen : sequence.Steps.len > 0
  · rcases qsf with _ | qsf
    swap
    · simp [CreateSequence, Begin, Tx.queryRowInsertSequence, DB.insertSequence, scanInto, hlen,
        hgen, Tx.queryInsertSteps, Tx.Rollback]
      try omega
    have henc : encodeArgs ((stepValues db.sequences_id_seq sequence.Steps.toList).map
        (fun v => v.1)) = none :=
      encodeArgs_stepValues _ _ (Nat.le_of_not_gt hgen)
    have hvl : (stepValues db.sequences_id_seq sequence.Steps.toList).length =
        sequence.Steps.len := by
      simp [stepValues, Slice.len]
    by_cases hex : db.steps_id_seq + sequence.Steps.len > maxInt64 + 1
    · rcases cf with _ | cf <;>
        (simp [CreateSequence, Begin, Tx.queryRowInsertSequence, DB.insertSequence, scanInto,
          hlen, hgen, Tx.queryInsertSteps, henc, hvl, hex, scanInserted, Tx.Commit,
          Tx.Rollback]; try omega)
    simp only [CreateSequence, Begin, Tx.queryRowInsertSequence, DB.insertSequence, scanInto,
        hlen, hgen, Tx.queryInsertSteps, henc, hvl, hex, DB.insertSteps, if_true, if_false]
        at h ⊢
    split
    · simp [Tx.Rollback]
      try omega
    · rename_i inserted hscan
      rw [hscan] at h
      rcases cf with _ | cf
      · rcases rf with _ | rf
        · simp [Tx.Commit] at h
        · simp [Tx.Commit, Tx.Rollback]
          try omega
      · simp [Tx.Commit, Tx.Rollback]
        try omega
  · simp only [CreateSequence, Begin, Tx.queryRowInsertSequence, DB.insertSequence, scanInto,
        hlen, hgen, if_false] at h ⊢
    rcases cf with _ | cf
    · simp [Tx.Commit] at h
    · simp [Tx.Commit, Tx.Rollback]
      try omega

/-- The steps of a sequence after `UPDATE steps .. WHERE id = .. AND
sequence_id = ..`: the same rows in the same order, each passed through the
update. -/
theorem selectSteps_updateStep (db : DB) (now id sid other : Nat) (subject content : String) :
    (db.updateStep now id sid subject content).1.selectSteps other =
      (db.selectSteps other).map (fun r =>
        if r.id = id ∧ r.sequence_id = sid then
          { r with subject := subject, content := content, updated_at := now }
        else r) := by
  simp only [DB.updateStep, DB.selectSteps, orderByID]
  rw [List.filter_map]
  have hcomp : ((fun r : StepRow => decide (r.sequence_id = other)) ∘ fun r : StepRow =>
      if r.id = id ∧ r.sequence_id = sid then
        { r with subject := subject, content := content, updated_at := now }
      else r) = fun r : StepRow => decide (r.sequence_id = other) := by
    funext r
    by_cases h : r.id = id ∧ r.sequence_id = sid <;> simp [h]
  rw [hcomp]
  symm
  apply List.map_insertionSort
  intro a _ b _
  by_cases ha : a.id = id ∧ a.sequence_id = sid <;>
    by_cases hb : b.id = id ∧ b.sequence_id = sid <;> simp [ha, hb]

theorem mem_selectSteps {db : DB} {sid : Nat} {r : StepRow} (h : r ∈ db.selectSteps sid) :
    r ∈ db.steps ∧ r.sequence_id = sid := by
  have h1 := (orderByID_perm _).mem_iff.mp h
  simpa using h1

/-- A `CreateSequence` that returns no error has seen no failing call: in
particular a cursor error of the step insert, which the loop does not look
at, surfaces through `Commit`. -/
theorem CreateSequence_ok_no_fault (db : DB) (env : CreateEnv) (s : Sequence)
    (h : (CreateSequence db env s).err = none) :
    env.beginFault = none ∧ env.insertSequenceFault = none ∧ env.scanSequenceFault = none ∧
    env.commitFault = none ∧
    (s.Steps.len > 0 → env.queryStepsFault = none ∧ env.stepRowsFault = none) ∧
    db.sequences_id_seq ≤ maxInt64 ∧
    (s.Steps.len > 0 → db.steps_id_seq + s.Steps.len ≤ maxInt64 + 1) := by
  obtain ⟨now, bf, isf, ssf, qsf, scf, rf, cf⟩ := env
  rcases bf with _ | bf
  swap
  · simp [CreateSequence, Begin] at h
  rcases isf with _ | isf
  swap
  · simp [CreateSequence, Begin, Tx.queryRowInsertSequence] at h
  by_cases hgen : db.sequences_id_seq > maxInt64
  · simp [CreateSequence, Begin, Tx.queryRowInsertSequence, hgen] at h
  rcases ssf with _ | ⟨k, code⟩
  swap
  · rcases k with _ | _ | k <;>
      simp [CreateSequence, Begin, Tx.queryRowInsertSequence, DB.insertSequence, scanInto,
        hgen] at h
  by_cases hlen : s.Steps.len > 0
  · rcases qsf with _ | qsf
    swap
    · simp [CreateSequence, Begin, Tx.queryRowInsertSequence, DB.insertSequence, scanInto, hlen,
        hgen, Tx.queryInsertSteps] at h
    have henc : encodeArgs ((stepValues db.sequences_id_seq s.Steps.toList).map
        (fun v => v.1)) = none :=
      encodeArgs_stepValues _ _ (Nat.le_of_not_gt hgen)
    have hvl : (stepValues db.sequences_id_seq s.Steps.toList).length = s.Steps.len := by
      simp [stepValues, Slice.len]
    by_cases hex : db.steps_id_seq + s.Steps.len > maxInt64 + 1
    · rcases cf with _ | cf <;>
        simp [CreateSequence, Begin, Tx.queryRowInsertSequence, DB.insertSequence, scanInto,
          hlen, hgen, Tx.queryInsertSteps, henc, hvl, hex, scanInserted, Tx.Commit] at h
    simp only [CreateSequence, Begin, Tx.queryRowInsertSequence, DB.insertSequence, scanInto,
        hlen, hgen, Tx.queryInsertSteps, henc, hvl, hex, DB.insertSteps, if_true, if_false]
        at h
    split at h
    · simp at h
    · rcases cf with _ | cf
      · rcases rf with _ | rf
        · exact ⟨rfl, rfl, rfl, rfl, fun _ => ⟨rfl, rfl⟩, Nat.le_of_not_gt hgen,
            fun _ => Nat.le_of_not_gt hex⟩
        · simp [Tx.Commit] at h
      · simp [Tx.Commit] at h
  · simp only [CreateSequence, Begin, Tx.queryRowInsertSequence, DB.insertSequence, scanInto,
        hlen, hgen, if_false] at h
    rcases cf with _ | cf
    · exact ⟨rfl, rfl, rfl, rfl, fun hl => absurd hl hlen, Nat.le_of_not_gt hgen,
        fun hl => absurd hl hlen⟩
    · simp [Tx.Commit] at h

/-- A failing statement of a single-statement operation is returned. -/
theorem single_statement_fault (db : DB) (env : StmtEnv) (id code : Nat)
    (sequence : Sequence) (step : Step) (h : env.execFault = some code) :
    (UpdateSequence db env id sequence).1 = some (.Storage code) ∧
    (UpdateStep db env id step).1 = some (.Storage code) ∧
    (DeleteStep db env id step).1 = some (.Storage code) := by
  obtain ⟨now, ef, sf⟩ := env
  simp only at h
  subst h
  simp [UpdateSequence, UpdateStep, DeleteStep, DB.execDeleteStep]

/-- The database left by `UpdateSequence`: the one it was given, or the one
after the statement; the latter when it returns no error, which takes an id
that can be encoded. -/
theorem UpdateSequence_db (db : DB) (env : StmtEnv) (id : Nat) (sequence : Sequence) :
    ((UpdateSequence db env id sequence).2.1 = db ∨
      (UpdateSequence db env id sequence).2.1 =
        (db.updateSequence env.now id sequence.OpenTrackingEnabled
          sequence.ClickTrackingEnabled).1) ∧
    ((UpdateSequence db env id sequence).1 = none →
      id ≤ maxInt64 ∧
      (UpdateSequence db env id sequence).2.1 =
        (db.updateSequence env.now id sequence.OpenTrackingEnabled
          sequence.ClickTrackingEnabled).1) := by
  obtain ⟨now, ef, sf⟩ := env
  rcases ef with _ | ef
  swap
  · simp [UpdateSequence]
  by_cases hid : id ≤ maxInt64
  · simp [UpdateSequence, encodeArgs_single hid, hid]
  · have hgt : id > maxInt64 := Nat.lt_of_not_le hid
    simp [UpdateSequence, encodeArgs, hgt]

/-- The database left by `UpdateStep`, as for `UpdateSequence`. -/
theorem UpdateStep_db (db : DB) (env : StmtEnv) (id : Nat) (step : Step) :
    ((UpdateStep db env id step).2.1 = db ∨
      (UpdateStep db env id step).2.1 =
        (db.updateStep env.now id step.SequenceID step.Subject step.Content).1) ∧
    ((UpdateStep db env id step).1 = none →
      id ≤ maxInt64 ∧ step.SequenceID ≤ maxInt64 ∧
      (UpdateStep db env id step).2.1 =
        (db.updateStep env.now id step.SequenceID step.Subject step.Content).1) := by
  obtain ⟨now, ef, sf⟩ := env
  rcases ef with _ | ef
  swap
  · simp [UpdateStep]
  by_cases hid : id ≤ maxInt64
  · by_cases hsid : step.SequenceID ≤ maxInt64
    · simp [UpdateStep, encodeArgs_pair hid hsid, hid, hsid]
    · have hgt : step.SequenceID > maxInt64 := Nat.lt_of_not_le hsid
      have hn : ¬ id > maxInt64 := Nat.not_lt.mpr hid
      simp [UpdateStep, encodeArgs, hgt, hn]
  · have hgt : id > maxInt64 := Nat.lt_of_not_le hid
    simp [UpdateStep, encodeArgs, hgt]

/-- The call `Exec` of `DeleteStep` succeeds exactly when the backend reports
no failure and both arguments can be encoded. -/
theorem execDeleteStep_ok_iff (db : DB) (fault : Option Nat) (id sid : Nat) :
    db.execDeleteStep fault id sid = .ok (db.deleteStep id sid) ↔
      fault = none ∧ id ≤ maxInt64 ∧ sid ≤ maxInt64 := by
  rcases fault with _ | code
  swap
  · simp [DB.execDeleteStep]
  by_cases hid : id ≤ maxInt64
  · by_cases hsid : sid ≤ maxInt64
    · simp [DB.execDeleteStep, encodeArgs_pair hid hsid, hid, hsid]
    · have hgt : sid > maxInt64 := Nat.lt_of_not_le hsid
      have hn : ¬ id > maxInt64 := Nat.not_lt.mpr hid
      simp [DB.execDeleteStep, encodeArgs, hgt, hn, hsid]
  · have hgt : id > maxInt64 := Nat.lt_of_not_le hid
    simp [DB.execDeleteStep, encodeArgs, hgt, hid]

/-- The database left by `DeleteStep`, as for `UpdateSequence`. -/
theorem DeleteStep_db (db : DB) (env : StmtEnv) (id : Nat) (step : Step) :
    ((DeleteStep db env id step).2 = db ∨
      (DeleteStep db env id step).2 = (db.deleteStep id step.SequenceID).1) ∧
    ((DeleteStep db env id step).1 = none →
      id ≤ maxInt64 ∧ step.SequenceID ≤ maxInt64 ∧
      (DeleteStep db env id step).2 = (db.deleteStep id step.SequenceID).1) := by
  by_cases hok : env.execFault = none ∧ id ≤ maxInt64 ∧ step.SequenceID ≤ maxInt64
  · have hex := (execDeleteStep_ok_iff db env.execFault id step.SequenceID).mpr hok
    simp only [DeleteStep, hex]
    refine ⟨Or.inr ?_, fun _ => ⟨hok.2.1, hok.2.2, ?_⟩⟩ <;> (split <;> rfl)
  · have hne : db.execDeleteStep env.execFault id step.SequenceID ≠
        .ok (db.deleteStep id step.SequenceID) :=
      fun h => hok ((execDeleteStep_ok_iff db env.execFault id step.SequenceID).mp h)
    cases hres : db.execDeleteStep env.execFault id step.SequenceID with
    | error e => simp [DeleteStep, hres]
    | ok out =>
      exfalso
      apply hne
      rw [hres]
      simp only [DB.execDeleteStep] at hres
      split at hres
      · cases hres
      · split at hres
        · cases hres
        · simp only [Except.ok.injEq] at hres
          rw [hres]

/-! ## The schema constraints hold in every reachable database -/

theorem emptyDB_WF : emptyDB.WF := by decide

theorem CreateSequence_WF (db : DB) (env : CreateEnv) (sequence : Sequence) (hwf : db.WF) :
    (CreateSequence db env sequence).db.WF := by
  obtain ⟨hs, ht, hns, hnt, hfk, hbs, hbt⟩ := hwf
  by_cases h : (CreateSequence db env sequence).err = none
  · obtain ⟨hdb, -, -⟩ := CreateSequence_ok db env sequence h
    rw [hdb]
    have hids := newStepRows_ids env.now db.sequences_id_seq sequence.Steps.toList db.steps_id_seq
    have hrow : ∀ r ∈ newStepRows env.now db.steps_id_seq
        (stepValues db.sequences_id_seq sequence.Steps.toList),
        db.steps_id_seq ≤ r.id ∧ r.id < db.steps_id_seq + sequence.Steps.len := by
      intro r hr
      have : r.id ∈ List.range' db.steps_id_seq sequence.Steps.toList.length := by
        rw [← hids]
        exact List.mem_map_of_mem _ hr
      simpa [Slice.len] using this
    obtain ⟨-, -, -, -, -, hgen, hgt⟩ := CreateSequence_ok_no_fault db env sequence h
    refine ⟨?_, ?_, ?_, ?_, ?_, ?_, ?_⟩
    rotate_left 5
    · simp only
      omega
    · simp only
      by_cases hlen : sequence.Steps.len > 0
      · exact hgt hlen
      · omega
    · intro r hr
      simp only [List.mem_append, List.mem_singleton] at hr
      rcases hr with hr | rfl
      · have := hs r hr
        simp only
        omega
      · simp
    · intro r hr
      simp only [List.mem_append] at hr
      rcases hr with hr | hr
      · have := ht r hr
        simp only
        omega
      · exact (hrow r hr).2
    · simp only [List.map_append, List.map_cons, List.map_nil]
      rw [List.nodup_append]
      refine ⟨hns, by simp, ?_⟩
      intro a ha hb
      simp only [List.mem_singleton] at hb
      obtain ⟨r, hr, rfl⟩ := List.mem_map.mp ha
      have := hs r hr
      omega
    · simp only [List.map_append]
      rw [List.nodup_append]
      refine ⟨hnt, ?_, ?_⟩
      · rw [hids]
        exact List.nodup_range' _ _
      · intro a ha hb
        obtain ⟨r, hr, rfl⟩ := List.mem_map.mp ha
        obtain ⟨q, hq, hqr⟩ := List.mem_map.mp hb
        have h1 := ht r hr
        have h2 := (hrow q hq).1
        omega
    · intro r hr
      simp only [List.mem_append] at hr
      rcases hr with hr | hr
      · obtain ⟨q, hq, hqr⟩ := hfk r hr
        exact ⟨q, List.mem_append_left _ hq, hqr⟩
      · refine ⟨_, List.mem_append_right _ (List.mem_singleton_self _), ?_⟩
        exact (newStepRows_sequence_id _ _ _ _ r hr).symm
  · obtain ⟨h1, h2, h3, h4, h5, h6⟩ := CreateSequence_failed db env sequence h
    refine ⟨?_, ?_, ?_, ?_, ?_, h5 hbs, h6 hbt⟩
    · intro r hr
      rw [h1] at hr
      have := hs r hr
      omega
    · intro r hr
      rw [h2] at hr
      have := ht r hr
      omega
    · rw [h1]; exact hns
    · rw [h2]; exact hnt
    · rw [h1, h2]; exact hfk

theorem updateSequence_WF (db : DB) (now id : Nat) (o c : Bool) (hwf : db.WF) :
    (db.updateSequence now id o c).1.WF := by
  obtain ⟨hs, ht, hns, hnt, hfk, hbs, hbt⟩ := hwf
  have hids : ((db.updateSequence now id o c).1.sequences).map (fun r => r.id) =
      db.sequences.map (fun r => r.id) := by
    simp only [DB.updateSequence, List.map_map]
    apply List.map_congr_left
    intro r _
    by_cases hr : r.id = id <;> simp [hr]
  have hmem : ∀ x, x ∈ (db.updateSequence now id o c).1.sequences →
      ∃ r ∈ db.sequences, r.id = x.id := by
    intro x hx
    simp only [DB.updateSequence, List.mem_map] at hx
    obtain ⟨r, hr, rfl⟩ := hx
    refine ⟨r, hr, ?_⟩
    by_cases h : r.id = id <;> simp [h]
  refine ⟨?_, ht, ?_, hnt, ?_, hbs, hbt⟩
  · intro x hx
    obtain ⟨r, hr, hrx⟩ := hmem x hx
    have := hs r hr
    simp only [DB.updateSequence]
    omega
  · rw [hids]; exact hns
  · intro r hr
    obtain ⟨q, hq, hqr⟩ := hfk r hr
    have : q.id ∈ ((db.updateSequence now id o c).1.sequences).map (fun r => r.id) := by
      rw [hids]
      exact List.mem_map_of_mem _ hq
    obtain ⟨x, hx, hxq⟩ := List.mem_map.mp this
    exact ⟨x, hx, hxq.trans hqr⟩

theorem UpdateSequence_WF (db : DB) (env : StmtEnv) (id : Nat) (sequence : Sequence)
    (hwf : db.WF) : (UpdateSequence db env id sequence).2.1.WF := by
  rcases (UpdateSequence_db db env id sequence).1 with h | h
  · rw [h]; exact hwf
  · rw [h]; exact updateSequence_WF db _ _ _ _ hwf

theorem updateStep_WF (db : DB) (now id sid : Nat) (subject content : String) (hwf : db.WF) :
    (db.updateStep now id sid subject content).1.WF := by
  obtain ⟨hs, ht, hns, hnt, hfk, hbs, hbt⟩ := hwf
  have hids : ((db.updateStep now id sid subject content).1.steps).map
      (fun r => r.id) = db.steps.map (fun r => r.id) := by
    simp only [DB.updateStep, List.map_map]
    apply List.map_congr_left
    intro r _
    by_cases hr : r.id = id ∧ r.sequence_id = sid <;> simp [hr]
  have hmem : ∀ x, x ∈ (db.updateStep now id sid subject content).1.steps →
      ∃ r ∈ db.steps, r.id = x.id ∧ r.sequence_id = x.sequence_id := by
    intro x hx
    simp only [DB.updateStep, List.mem_map] at hx
    obtain ⟨r, hr, rfl⟩ := hx
    refine ⟨r, hr, ?_⟩
    by_cases h : r.id = id ∧ r.sequence_id = sid <;> simp [h]
  refine ⟨hs, ?_, hns, ?_, ?_, hbs, hbt⟩
  · intro x hx
    obtain ⟨r, hr, hrx, -⟩ := hmem x hx
    have := ht r hr
    simp only [DB.updateStep]
    omega
  · rw [hids]; exact hnt
  · intro x hx
    obtain ⟨r, hr, -, hrs⟩ := hmem x hx
    obtain ⟨q, hq, hqr⟩ := hfk r hr
    exact ⟨q, hq, hqr.trans hrs⟩

theorem UpdateStep_WF (db : DB) (env : StmtEnv) (id : Nat) (step : Step) (hwf : db.WF) :
    (UpdateStep db env id step).2.1.WF := by
  rcases (UpdateStep_db db env id step).1 with h | h
  · rw [h]; exact hwf
  · rw [h]; exact updateStep_WF db _ _ _ _ _ hwf

theorem deleteStep_WF (db : DB) (id sid : Nat) (hwf : db.WF) :
    (db.deleteStep id sid).1.WF := by
  obtain ⟨hs, ht, hns, hnt, hfk, hbs, hbt⟩ := hwf
  refine ⟨hs, ?_, hns, ?_, ?_, hbs, hbt⟩
  · intro r hr
    exact ht r (List.mem_of_mem_filter hr)
  · exact nodup_ids_filter _ hnt
  · intro r hr
    exact hfk r (List.mem_of_mem_filter hr)

theorem DeleteStep_WF (db : DB) (env : StmtEnv) (id : Nat) (step : Step) (hwf : db.WF) :
    (DeleteStep db env id step).2.WF := by
  rcases (DeleteStep_db db env id step).1 with h | h
  · rw [h]; exact hwf
  · rw [h]; exact deleteStep_WF db _ _ hwf

/-! ## C1: a failed creation leaves both tables as they were -/

/-- C1. Whenever `CreateSequence` returns an error, at whatever stage (begin,
sequence insert, scan of the sequence row, step insert, scan or delivery of a
step row, commit), the `sequences` table and the `steps` table are the same
as before the call. -/
theorem CreateSequence_error_leaves_tables (db : DB) (env : CreateEnv) (sequence : Sequence)
    (h : (CreateSequence db env sequence).err ≠ none) :
    (CreateSequence db env sequence).db.sequences = db.sequences ∧
    (CreateSequence db env sequence).db.steps = db.steps :=
  ⟨(CreateSequence_failed db env sequence h).1, (CreateSequence_failed db env sequence h).2.1⟩

/-- C1 at a concrete input: the scan of the second returned step row fails. -/
theorem CreateSequence_error_leaves_tables_witness :
    (CreateSequence sampleDB ⟨20, none, none, none, none, some (1, 7), none, none⟩
        testSequence).err ≠ none ∧
    (CreateSequence sampleDB ⟨20, none, none, none, none, some (1, 7), none, none⟩
        testSequence).db.sequences = sampleDB.sequences ∧
    (CreateSequence sampleDB ⟨20, none, none, none, none, some (1, 7), none, none⟩
        testSequence).db.steps = sampleDB.steps :=
  ⟨by decide,
   CreateSequence_error_leaves_tables sampleDB
     ⟨20, none, none, none, none, some (1, 7), none, none⟩ testSequence (by decide)⟩

/-! ## C2: row counts after a successful creation -/

/-- C2. A `CreateSequence` call that returns no error, for an input with `N`
steps (`N ≥ 0`), leaves exactly one more row in `sequences` and exactly `N`
more rows in `steps`. -/
theorem CreateSequence_row_counts (db : DB) (env : CreateEnv) (sequence : Sequence)
    (h : (CreateSequence db env sequence).err = none) :
    (CreateSequence db env sequence).db.sequences.length = db.sequences.length + 1 ∧
    (CreateSequence db env sequence).db.steps.length = db.steps.length + sequence.Steps.len := by
  obtain ⟨hdb, -, -⟩ := CreateSequence_ok db env sequence h
  rw [hdb]
  simp [newStepRows_length, stepValues, Slice.len]

/-- C2 at a concrete input: `testSequence` (two steps) created in `sampleDB`. -/
theorem CreateSequence_row_counts_witness :
    (CreateSequence sampleDB (CreateEnv.ok 20) testSequence).db.sequences.length =
      sampleDB.sequences.length + 1 ∧
    (CreateSequence sampleDB (CreateEnv.ok 20) testSequence).db.steps.length =
      sampleDB.steps.length + testSequence.Steps.len :=
  CreateSequence_row_counts sampleDB (CreateEnv.ok 20) testSequence (by decide)

/-! ## C3: fetching what was just created -/

/-- C3. If `CreateSequence` succeeds on a database that satisfies the schema
constraints, a fetch of the assigned ID on a working backend succeeds and
returns the sequence as the create left it in the input: same ID, name, flags
and timestamps, and the same steps in the same order.  The two values are equal
as Go values too, unless the input carried an allocated empty step slice (the
fetch then returns a nil slice). -/
theorem FetchSequence_after_CreateSequence (db : DB) (env : CreateEnv) (sequence : Sequence)
    (hwf : db.WF) (h : (CreateSequence db env sequence).err = none) :
    ∃ fetched : Sequence,
      FetchSequence (CreateSequence db env sequence).db FetchEnv.ok
          (CreateSequence db env sequence).sequence.ID = (some fetched, none) ∧
      fetched.ID = (CreateSequence db env sequence).sequence.ID ∧
      fetched.Name = (CreateSequence db env sequence).sequence.Name ∧
      fetched.OpenTrackingEnabled = (CreateSequence db env sequence).sequence.OpenTrackingEnabled ∧
      fetched.ClickTrackingEnabled =
        (CreateSequence db env sequence).sequence.ClickTrackingEnabled ∧
      fetched.CreatedAt = (CreateSequence db env sequence).sequence.CreatedAt ∧
      fetched.UpdatedAt = (CreateSequence db env sequence).sequence.UpdatedAt ∧
      fetched.Steps.toList = (CreateSequence db env sequence).sequence.Steps.toList ∧
      ((CreateSequence db env sequence).sequence.Steps ≠ Slice.mk [] →
        fetched = (CreateSequence db env sequence).sequence) := by
  obtain ⟨hdb, hseq, -⟩ := CreateSequence_ok db env sequence h
  obtain ⟨hfs, hft⟩ := hwf.fresh_sequence_id
  rw [hdb, hseq]
  have hsel : DB.selectSequence
      { sequences := db.sequences ++
          [⟨db.sequences_id_seq, sequence.Name, sequence.OpenTrackingEnabled,
            sequence.ClickTrackingEnabled, env.now, env.now⟩],
        steps := db.steps ++ newStepRows env.now db.steps_id_seq
          (stepValues db.sequences_id_seq sequence.Steps.toList),
        sequences_id_seq := db.sequences_id_seq + 1,
        steps_id_seq := db.steps_id_seq + sequence.Steps.len } db.sequences_id_seq =
      [⟨db.sequences_id_seq, sequence.Name, sequence.OpenTrackingEnabled,
            sequence.ClickTrackingEnabled, env.now, env.now⟩] := by
    simp [DB.selectSequence, List.filter_append, hfs]
  have hsteps : DB.selectSteps
      { sequences := db.sequences ++
          [⟨db.sequences_id_seq, sequence.Name, sequence.OpenTrackingEnabled,
            sequence.ClickTrackingEnabled, env.now, env.now⟩],
        steps := db.steps ++ newStepRows env.now db.steps_id_seq
          (stepValues db.sequences_id_seq sequence.Steps.toList),
        sequences_id_seq := db.sequences_id_seq + 1,
        steps_id_seq := db.steps_id_seq + sequence.Steps.len } db.sequences_id_seq =
      newStepRows env.now db.steps_id_seq
          (stepValues db.sequences_id_seq sequence.Steps.toList) := by
    have hall : (newStepRows env.now db.steps_id_seq
          (stepValues db.sequences_id_seq sequence.Steps.toList)).filter
            (fun r => r.sequence_id = db.sequences_id_seq) =
        newStepRows env.now db.steps_id_seq
          (stepValues db.sequences_id_seq sequence.Steps.toList) := by
      rw [List.filter_eq_self]
      intro r hr
      simpa using newStepRows_sequence_id _ _ _ _ r hr
    simp only [DB.selectSteps, List.filter_append, hft, hall, List.nil_append, orderByID]
    exact (newStepRows_sorted _ _ _ _).insertionSort_eq
  have hmap : (newStepRows env.now db.steps_id_seq
        (stepValues db.sequences_id_seq sequence.Steps.toList)).map fetchedStep =
      (newStepRows env.now db.steps_id_seq
        (stepValues db.sequences_id_seq sequence.Steps.toList)).map
          (insertedStep db.sequences_id_seq) := by
    apply List.map_congr_left
    intro r hr
    simp [fetchedStep, insertedStep, newStepRows_sequence_id _ _ _ _ r hr]
  have hfetch := FetchSequence_present _ _ _ _
    (CreateSequence_ok_no_fault db env sequence h).2.2.2.2.2.1 hsel
  rw [hsteps, hmap] at hfetch
  refine ⟨_, hfetch, rfl, rfl, rfl, rfl, rfl, rfl, ?_, ?_⟩
  · by_cases hlen : sequence.Steps.len > 0
    · simp only [hlen, if_true, Slice.toList_collect]
      rfl
    · have h0 : sequence.Steps.toList = [] := by simpa [Slice.len] using hlen
      simp only [hlen, if_false, Slice.toList_collect, h0]
      rfl
  · by_cases hlen : sequence.Steps.len > 0
    · intro _
      have hne : newStepRows env.now db.steps_id_seq
          (stepValues db.sequences_id_seq sequence.Steps.toList) ≠ [] := by
        intro h0
        have h1 := newStepRows_length env.now
          (stepValues db.sequences_id_seq sequence.Steps.toList) db.steps_id_seq
        rw [h0] at h1
        simp [stepValues, Slice.len] at h1 hlen
        simp [h1] at hlen
      simp only [hlen, if_true]
      cases hr : newStepRows env.now db.steps_id_seq
          (stepValues db.sequences_id_seq sequence.Steps.toList) with
      | nil => exact absurd hr hne
      | cons a l => simp [Slice.collect]
    · have h0 : sequence.Steps.toList = [] := by simpa [Slice.len] using hlen
      simp only [hlen, if_false]
      intro hne
      cases hst : sequence.Steps with
      | nil => simp [hst, Slice.toList, stepValues, newStepRows, Slice.collect]
      | mk l =>
        rw [hst] at h0 hne
        simp only [Slice.toList] at h0
        rw [h0] at hne
        exact absurd rfl hne

/-- C3 at a concrete input: `testSequence` created in `sampleDB` and fetched back. -/
theorem FetchSequence_after_CreateSequence_witness :
    sampleDB.WF ∧ (CreateSequence sampleDB (CreateEnv.ok 20) testSequence).err = none ∧
    ∃ fetched : Sequence,
      FetchSequence (CreateSequence sampleDB (CreateEnv.ok 20) testSequence).db FetchEnv.ok
          (CreateSequence sampleDB (CreateEnv.ok 20) testSequence).sequence.ID =
        (some fetched, none) ∧
      fetched = (CreateSequence sampleDB (CreateEnv.ok 20) testSequence).sequence :=
  ⟨by decide, by decide,
   match FetchSequence_after_CreateSequence sampleDB (CreateEnv.ok 20) testSequence
      (by decide) (by decide) with
   | ⟨fetched, hf, _, _, _, _, _, _, _, hall⟩ => ⟨fetched, hf, hall (by decide)⟩⟩

/-! ## C4: what a successful creation writes back into its input -/

/-- C4. After a successful `CreateSequence` the input carries the ID and the
timestamps of the new `sequences` row.  With at least one input step, exactly
one multi-row step insert is sent, and the step collection is replaced by the
rows it returned, in the order returned: as many steps as the input had, with
the ids drawn for the new rows, each referring to the new sequence, and the
subjects and contents of the input steps position by position.  With no input
step only the sequence insert is sent and the step collection is left as
given. -/
theorem CreateSequence_writes_back (db : DB) (env : CreateEnv) (sequence : Sequence)
    (h : (CreateSequence db env sequence).err = none) :
    ∃ (row : SequenceRow) (rows : List StepRow),
      (CreateSequence db env sequence).db.sequences = db.sequences ++ [row] ∧
      (CreateSequence db env sequence).db.steps = db.steps ++ rows ∧
      row.id = db.sequences_id_seq ∧
      rows.map (fun r => r.id) = List.range' db.steps_id_seq sequence.Steps.len ∧
      (CreateSequence db env sequence).sequence.ID = row.id ∧
      (CreateSequence db env sequence).sequence.CreatedAt = row.created_at ∧
      (CreateSequence db env sequence).sequence.UpdatedAt = row.updated_at ∧
      (0 < sequence.Steps.len →
        (CreateSequence db env sequence).stmts =
          [Stmt.insertSequence, Stmt.insertSteps sequence.Steps.len] ∧
        (CreateSequence db env sequence).sequence.Steps =
          Slice.mk (rows.map (insertedStep row.id)) ∧
        (CreateSequence db env sequence).sequence.Steps.len = sequence.Steps.len ∧
        (CreateSequence db env sequence).sequence.Steps.toList.map
            (fun st => (st.ID, st.SequenceID)) = rows.map (fun r => (r.id, row.id)) ∧
        (CreateSequence db env sequence).sequence.Steps.toList.map
            (fun st => (st.Subject, st.Content)) =
          sequence.Steps.toList.map (fun st => (st.Subject, st.Content))) ∧
      (sequence.Steps.len = 0 →
        (CreateSequence db env sequence).stmts = [Stmt.insertSequence] ∧
        (CreateSequence db env sequence).sequence.Steps = sequence.Steps ∧
        rows = []) := by
  obtain ⟨hdb, hseq, hstmts⟩ := CreateSequence_ok db env sequence h
  refine ⟨⟨db.sequences_id_seq, sequence.Name, sequence.OpenTrackingEnabled,
      sequence.ClickTrackingEnabled, env.now, env.now⟩,
    newStepRows env.now db.steps_id_seq (stepValues db.sequences_id_seq sequence.Steps.toList),
    ?_, ?_, rfl, ?_, ?_, ?_, ?_, ?_, ?_⟩
  · rw [hdb]
  · rw [hdb]
  · exact newStepRows_ids _ _ _ _
  · rw [hseq]
  · rw [hseq]
  · rw [hseq]
  · intro hlen
    have hlen' : sequence.Steps.len > 0 := hlen
    rw [hstmts, if_pos hlen', hseq, if_pos hlen']
    refine ⟨rfl, rfl, ?_, ?_, ?_⟩
    · show (List.map _ _).length = _
      rw [List.length_map, newStepRows_length]
      simp [stepValues, Slice.len]
    · show List.map _ (List.map _ _) = _
      rw [List.map_map]
      rfl
    · show List.map _ (List.map _ _) = _
      rw [List.map_map]
      have hv := newStepRows_values env.now db.sequences_id_seq sequence.Steps.toList
        db.steps_id_seq
      have hv2 := congrArg (List.map (fun t : Nat × String × String => (t.2.1, t.2.2))) hv
      simp only [stepValues, List.map_map] at hv2
      exact hv2
  · intro hlen
    have h0 : sequence.Steps.toList = [] := by simpa [Slice.len] using hlen
    rw [hstmts, hseq]
    simp [hlen, h0, stepValues, newStepRows]

/-- C4 at a concrete input: `testSequence` (two steps) created in `sampleDB`. -/
theorem CreateSequence_writes_back_witness :
    (CreateSequence sampleDB (CreateEnv.ok 20) testSequence).err = none ∧
    ∃ (row : SequenceRow) (rows : List StepRow),
      (CreateSequence sampleDB (CreateEnv.ok 20) testSequence).db.sequences =
        sampleDB.sequences ++ [row] ∧
      (CreateSequence sampleDB (CreateEnv.ok 20) testSequence).db.steps =
        sampleDB.steps ++ rows ∧
      (CreateSequence sampleDB (CreateEnv.ok 20) testSequence).sequence.ID = row.id ∧
      (CreateSequence sampleDB (CreateEnv.ok 20) testSequence).sequence.Steps =
        Slice.mk (rows.map (insertedStep row.id)) :=
  ⟨by decide,
   match CreateSequence_writes_back sampleDB (CreateEnv.ok 20) testSequence (by decide) with
   | ⟨row, rows, h1, h2, _, _, h5, _, _, h8, _⟩ =>
     ⟨row, rows, h1, h2, h5, (h8 (by decide)).2.1⟩⟩

/-! ## C5: fetching an id that has no row -/

/-- C5, as stated, fails: `sampleDB` holds no sequence with id `2 ^ 63`, the
backend is healthy, and `FetchSequence` returns the encoding error of the
driver, not `pgx.ErrNoRows`. -/
theorem FetchSequence_absent_unencodable_id :
    (∀ r ∈ sampleDB.sequences, r.id ≠ 9223372036854775808) ∧
    FetchSequence sampleDB FetchEnv.ok 9223372036854775808 =
      (none, some (StoreError.Encoding 9223372036854775808)) ∧
    (FetchSequence sampleDB FetchEnv.ok 9223372036854775808).2 ≠
      some StoreError.ErrNoRows := by
  decide

/-- C5, amended. When the `sequences` table holds no row with the given id,
`FetchSequence` returns a nil sequence.  When the lookup does not fail at the
backend, its error is `pgx.ErrNoRows` for every id up to `maxInt64`, and the
encoding error of the driver for every id above `maxInt64`; `pgx.ErrNoRows`
is different from every other error value. -/
theorem FetchSequence_absent_ErrNoRows (db : DB) (env : FetchEnv) (id : Nat)
    (habs : ∀ r ∈ db.sequences, r.id ≠ id) :
    (FetchSequence db env id).1 = none ∧
    (env.selectSequenceFault = none → id ≤ maxInt64 →
      FetchSequence db env id = (none, some StoreError.ErrNoRows)) ∧
    (env.selectSequenceFault = none → maxInt64 < id →
      FetchSequence db env id = (none, some (StoreError.Encoding id))) ∧
    (∀ code, StoreError.ErrNoRows ≠ StoreError.Storage code) ∧
    StoreError.ErrNoRows ≠ StoreError.ErrTxCommitRollback ∧
    (∀ value, StoreError.ErrNoRows ≠ StoreError.Encoding value) ∧
    StoreError.ErrNoRows ≠ StoreError.IdExhausted := by
  have hsel : db.selectSequence id = [] := by
    rw [DB.selectSequence, List.filter_eq_nil_iff]
    intro r hr
    simpa using habs r hr
  obtain ⟨f1, f2, f3, f4, f5⟩ := env
  refine ⟨?_, ?_, ?_, ?_, ?_, ?_, ?_⟩
  · by_cases hid : id ≤ maxInt64
    · cases f1 <;>
        simp [FetchSequence, DB.queryRowSelectSequence, encodeArgs_single hid, hsel, scanRow]
    · have hgt : id > maxInt64 := Nat.lt_of_not_le hid
      cases f1 <;> simp [FetchSequence, DB.queryRowSelectSequence, encodeArgs, hgt]
  · intro h1 hid
    simp only at h1
    subst h1
    simp [FetchSequence, DB.queryRowSelectSequence, encodeArgs_single hid, hsel, scanRow]
  · intro h1 hgt
    simp only at h1
    subst h1
    simp [FetchSequence, DB.queryRowSelectSequence, encodeArgs, hgt]
  · intro code h
    cases h
  · intro h
    cases h
  · intro value h
    cases h
  · intro h
    cases h

/-- C5, amended, at a concrete input: id 9 in `sampleDB`, with every later
call set to fail. -/
theorem FetchSequence_absent_ErrNoRows_witness :
    FetchSequence sampleDB ⟨none, some 3, some 4, some (0, 5), some (0, 6)⟩ 9 =
      (none, some StoreError.ErrNoRows) :=
  (FetchSequence_absent_ErrNoRows sampleDB ⟨none, some 3, some 4, some (0, 5), some (0, 6)⟩ 9
    (by decide)).2.1 rfl (by decide)

/-! ## C6: updating a step that does not match -/

/-- C6, as stated, fails: no step row of `sampleDB` has id `2 ^ 63`, the
backend is healthy, and `UpdateStep` returns the encoding error of the
driver, not `pgx.ErrNoRows`. -/
theorem UpdateStep_no_match_unencodable_id :
    (∀ r ∈ sampleDB.steps, ¬ (r.id = 9223372036854775808 ∧ r.sequence_id = 1)) ∧
    (UpdateStep sampleDB (StmtEnv.ok 30) 9223372036854775808
        ⟨0, 1, "New", "Text", 0, 0⟩).1 =
      some (StoreError.Encoding 9223372036854775808) ∧
    (UpdateStep sampleDB (StmtEnv.ok 30) 9223372036854775808
        ⟨0, 1, "New", "Text", 0, 0⟩).1 ≠ some StoreError.ErrNoRows := by
  decide

/-- C6, amended. When no step row has both the given id and the patch's
sequence-reference, `UpdateStep` leaves the database and the caller's value
unchanged, whatever the backend does.  When the statement does not fail at
the backend, it returns `pgx.ErrNoRows` if the id and the sequence-reference
are both at most `maxInt64`, and the encoding error of the driver if one of
them is above `maxInt64`. -/
theorem UpdateStep_no_match (db : DB) (env : StmtEnv) (id : Nat) (step : Step)
    (hno : ∀ r ∈ db.steps, ¬ (r.id = id ∧ r.sequence_id = step.SequenceID)) :
    (UpdateStep db env id step).2.1 = db ∧
    (UpdateStep db env id step).2.2 = step ∧
    (env.execFault = none → id ≤ maxInt64 → step.SequenceID ≤ maxInt64 →
      (UpdateStep db env id step).1 = some StoreError.ErrNoRows) ∧
    (env.execFault = none → (maxInt64 < id ∨ maxInt64 < step.SequenceID) →
      ∃ value, (UpdateStep db env id step).1 = some (StoreError.Encoding value)) := by
  have hmap : db.steps.map (fun r : StepRow =>
      if r.id = id ∧ r.sequence_id = step.SequenceID then
        { r with subject := step.Subject, content := step.Content, updated_at := env.now }
      else r) = db.steps := by
    conv_rhs => rw [← List.map_id db.steps]
    apply List.map_congr_left
    intro r hr
    simp [hno r hr]
  have hfil : db.steps.filter (fun r => r.id = id ∧ r.sequence_id = step.SequenceID) = [] := by
    rw [List.filter_eq_nil_iff]
    intro r hr
    simpa using hno r hr
  obtain ⟨now, ef, sf⟩ := env
  rcases ef with _ | ef
  swap
  · simp [UpdateStep]
  by_cases hid : id ≤ maxInt64
  · by_cases hsid : step.SequenceID ≤ maxInt64
    · simp only [UpdateStep, DB.updateStep, encodeArgs_pair hid hsid]
      simp only at hmap
      rw [hmap, hfil]
      have h1 : ¬ maxInt64 < id := Nat.not_lt.mpr hid
      have h2 : ¬ maxInt64 < step.SequenceID := Nat.not_lt.mpr hsid
      simp [scanInto, hid, hsid, h1, h2]
    · have hgt : step.SequenceID > maxInt64 := Nat.lt_of_not_le hsid
      have hn : ¬ id > maxInt64 := Nat.not_lt.mpr hid
      simp [UpdateStep, encodeArgs, hgt, hn, hsid]
  · have hgt : id > maxInt64 := Nat.lt_of_not_le hid
    simp [UpdateStep, encodeArgs, hgt, hid]

/-- C6, amended, at a concrete input: step 2 exists in `sampleDB`, but in
sequence 1, not 7. -/
theorem UpdateStep_no_match_witness :
    (UpdateStep sampleDB (StmtEnv.ok 30) 2 ⟨0, 7, "New", "Text", 0, 0⟩).2.1 = sampleDB ∧
    (UpdateStep sampleDB (StmtEnv.ok 30) 2 ⟨0, 7, "New", "Text", 0, 0⟩).1 =
      some StoreError.ErrNoRows :=
  ⟨(UpdateStep_no_match sampleDB (StmtEnv.ok 30) 2 ⟨0, 7, "New", "Text", 0, 0⟩ (by decide)).1,
   (UpdateStep_no_match sampleDB (StmtEnv.ok 30) 2 ⟨0, 7, "New", "Text", 0, 0⟩
      (by decide)).2.2.1 rfl (by decide) (by decide)⟩

/-! ## C7: not-found detection of `DeleteStep` -/

/-- C7. When the backend delete does not fail, that is when the `Exec` call
returns no error, `DeleteStep` returns `pgx.ErrNoRows` exactly when zero rows
were affected, which is exactly when no step row has both the given id and
the given sequence-reference; the `steps` table is then unchanged.  When at
least one row was affected it returns no error. -/
theorem DeleteStep_ErrNoRows_iff (db : DB) (env : StmtEnv) (id : Nat) (step : Step)
    (hex : ∃ out, db.execDeleteStep env.execFault id step.SequenceID = .ok out) :
    ((DeleteStep db env id step).1 = some StoreError.ErrNoRows ↔
      (db.deleteStep id step.SequenceID).2 = 0) ∧
    ((db.deleteStep id step.SequenceID).2 = 0 ↔
      ∀ r ∈ db.steps, ¬ (r.id = id ∧ r.sequence_id = step.SequenceID)) ∧
    ((DeleteStep db env id step).1 = some StoreError.ErrNoRows →
      (DeleteStep db env id step).2 = db) ∧
    ((db.deleteStep id step.SequenceID).2 ≠ 0 → (DeleteStep db env id step).1 = none) := by
  have hexec : db.execDeleteStep env.execFault id step.SequenceID =
      .ok (db.deleteStep id step.SequenceID) := by
    obtain ⟨out, hout⟩ := hex
    rw [hout]
    simp only [DB.execDeleteStep] at hout
    split at hout
    · cases hout
    · split at hout
      · cases hout
      · simp only [Except.ok.injEq] at hout
        rw [hout]
  have hcount : (db.deleteStep id step.SequenceID).2 = 0 ↔
      ∀ r ∈ db.steps, ¬ (r.id = id ∧ r.sequence_id = step.SequenceID) := by
    simp [DB.deleteStep, List.filter_eq_nil_iff]
  refine ⟨?_, hcount, ?_, ?_⟩
  · by_cases h0 : (db.deleteStep id step.SequenceID).2 = 0
    · simp [DeleteStep, hexec, h0]
    · simp [DeleteStep, hexec, h0]
  · intro herr
    by_cases h0 : (db.deleteStep id step.SequenceID).2 = 0
    · have hno := hcount.mp h0
      have hfil : db.steps.filter
          (fun r => !decide (r.id = id ∧ r.sequence_id = step.SequenceID)) = db.steps := by
        rw [List.filter_eq_self]
        intro r hr
        have := hno r hr
        simp only [Bool.not_eq_true', decide_eq_false_iff_not]
        exact this
      simp only [DeleteStep, hexec, h0, if_true]
      simp only [DB.deleteStep, hfil]
    · simp [DeleteStep, hexec, h0] at herr
  · intro h0
    simp [DeleteStep, hexec, h0]

/-- C7 at a concrete input: deleting step 2 of `sampleDB` through sequence 7. -/
theorem DeleteStep_ErrNoRows_iff_witness :
    (DeleteStep sampleDB (StmtEnv.ok 30) 2 ⟨0, 7, "", "", 0, 0⟩).1 =
      some StoreError.ErrNoRows ∧
    (DeleteStep sampleDB (StmtEnv.ok 30) 2 ⟨0, 7, "", "", 0, 0⟩).2 = sampleDB :=
  ⟨(DeleteStep_ErrNoRows_iff sampleDB (StmtEnv.ok 30) 2 ⟨0, 7, "", "", 0, 0⟩
      ⟨_, rfl⟩).1.mpr (by decide),
   (DeleteStep_ErrNoRows_iff sampleDB (StmtEnv.ok 30) 2 ⟨0, 7, "", "", 0, 0⟩
      ⟨_, rfl⟩).2.2.1 (by decide)⟩

/-! ## C8: the steps returned by `FetchSequence` -/

/-- C8. In a database satisfying the schema constraints, a fault-free
`FetchSequence` of an existing sequence returns exactly the step rows whose
sequence-reference is the id, in strictly ascending order of step ID; any
database with the same rows stored in another order gives the same answer. -/
theorem FetchSequence_steps_sorted (db : DB) (id : Nat) (hwf : db.WF)
    (hex : ∃ r ∈ db.sequences, r.id = id) :
    ∃ fetched : Sequence,
      FetchSequence db FetchEnv.ok id = (some fetched, none) ∧
      fetched.Steps.toList.Perm
        ((db.steps.filter (fun r => r.sequence_id = id)).map fetchedStep) ∧
      fetched.Steps.toList.Pairwise (fun a b => a.ID < b.ID) ∧
      (∀ db₂ : DB, db₂.sequences = db.sequences → db₂.steps.Perm db.steps →
        FetchSequence db₂ FetchEnv.ok id = (some fetched, none)) := by
  obtain ⟨r, hr, hrid⟩ := hex
  obtain ⟨hs, -, -, hnd, -, hbs, -⟩ := hwf
  have hid : id ≤ maxInt64 := by
    have := hs r hr
    omega
  cases hsel : db.selectSequence id with
  | nil =>
    rw [DB.selectSequence, List.filter_eq_nil_iff] at hsel
    have := hsel r hr
    simp [hrid] at this
  | cons row rest =>
    refine ⟨_, FetchSequence_present db id row rest hid hsel, ?_, ?_, ?_⟩
    · simp only [Slice.toList_collect, DB.selectSteps]
      exact (orderByID_perm _).map _
    · simp only [Slice.toList_collect, DB.selectSteps, List.pairwise_map]
      exact orderByID_strict (nodup_ids_filter _ hnd)
    · intro db₂ hseq hsteps
      have hsel₂ : db₂.selectSequence id = row :: rest := by
        rw [DB.selectSequence, hseq]
        exact hsel
      have hst : db₂.selectSteps id = db.selectSteps id := by
        simp only [DB.selectSteps]
        exact orderByID_congr (hsteps.filter _)
          (nodup_ids_filter _ (nodup_ids_perm hsteps.symm hnd))
      rw [FetchSequence_present db₂ id row rest hid hsel₂, hst]

/-- C8 at a concrete input: sequence 1 of `shuffledDB`. -/
theorem FetchSequence_steps_sorted_witness :
    shuffledDB.WF ∧
    ∃ fetched : Sequence,
      FetchSequence shuffledDB FetchEnv.ok 1 = (some fetched, none) ∧
      fetched.Steps.toList.Perm
        ((shuffledDB.steps.filter (fun r => r.sequence_id = 1)).map fetchedStep) ∧
      fetched.Steps.toList.Pairwise (fun a b => a.ID < b.ID) :=
  ⟨by decide,
   match FetchSequence_steps_sorted shuffledDB 1 (by decide) (by decide) with
   | ⟨fetched, h1, h2, h3, _⟩ => ⟨fetched, h1, h2, h3⟩⟩

/-! ## C9: updating the flags of a sequence -/

/-- C9. If `UpdateSequence` succeeds on a sequence that a fault-free fetch
returned as `before`, a fault-free fetch afterwards returns a sequence with
the flags of the patch and with the ID, name, creation timestamp and steps of
`before`; the `steps` table is unchanged, and the `sequences` table has the
same rows in the same places except for rows with this id. -/
theorem FetchSequence_after_UpdateSequence (db : DB) (env : StmtEnv) (id : Nat)
    (patch before : Sequence)
    (hb : FetchSequence db FetchEnv.ok id = (some before, none))
    (hu : (UpdateSequence db env id patch).1 = none) :
    ∃ after : Sequence,
      FetchSequence (UpdateSequence db env id patch).2.1 FetchEnv.ok id = (some after, none) ∧
      after.OpenTrackingEnabled = patch.OpenTrackingEnabled ∧
      after.ClickTrackingEnabled = patch.ClickTrackingEnabled ∧
      after.ID = before.ID ∧
      after.Name = before.Name ∧
      after.CreatedAt = before.CreatedAt ∧
      after.Steps = before.Steps ∧
      (UpdateSequence db env id patch).2.1.steps = db.steps ∧
      (UpdateSequence db env id patch).2.1.sequences.length = db.sequences.length ∧
      (∀ (i : Nat) (r : SequenceRow), db.sequences[i]? = some r → r.id ≠ id →
        (UpdateSequence db env id patch).2.1.sequences[i]? = some r) := by
  obtain ⟨now, ef, sf⟩ := env
  rcases ef with _ | ef
  swap
  · simp [UpdateSequence] at hu
  have hid : id ≤ maxInt64 := FetchSequence_some_le db id before hb
  cases hsel : db.selectSequence id with
  | nil =>
    rw [FetchSequence_absent db id hid hsel] at hb
    simp at hb
  | cons row rest =>
    rw [FetchSequence_present db id row rest hid hsel] at hb
    simp only [Prod.mk.injEq, Option.some.injEq, and_true] at hb
    subst hb
    have hdb : (UpdateSequence db ⟨now, none, sf⟩ id patch).2.1 =
        (db.updateSequence now id patch.OpenTrackingEnabled patch.ClickTrackingEnabled).1 :=
      ((UpdateSequence_db db ⟨now, none, sf⟩ id patch).2 hu).2
    rw [hdb]
    have hsel' := selectSequence_updateSequence db now id patch.OpenTrackingEnabled
      patch.ClickTrackingEnabled
    rw [hsel, List.map_cons] at hsel'
    refine ⟨_, FetchSequence_present _ id _ _ hid hsel', rfl, rfl, rfl, rfl, rfl, ?_, ?_, ?_,
      ?_⟩
    · simp [DB.selectSteps, DB.updateSequence]
    · simp [DB.updateSequence]
    · simp [DB.updateSequence]
    · intro i r hi hne
      simp [DB.updateSequence, hi, hne]

/-- C9 at a concrete input: both flags of sequence 1 of `sampleDB` are cleared. -/
theorem FetchSequence_after_UpdateSequence_witness :
    ∃ after : Sequence,
      FetchSequence
          (UpdateSequence sampleDB (StmtEnv.ok 30) 1 ⟨0, "", false, false, 0, 0, .nil⟩).2.1
          FetchEnv.ok 1 = (some after, none) ∧
      after.OpenTrackingEnabled = false ∧ after.ClickTrackingEnabled = false ∧
      after.Name = "Welcome" ∧ after.Steps.len = 2 :=
  match FetchSequence_after_UpdateSequence sampleDB (StmtEnv.ok 30) 1
      ⟨0, "", false, false, 0, 0, .nil⟩
      ⟨1, "Welcome", true, false, 10, 10,
        .mk [⟨1, 1, "Hello", "First mail", 10, 10⟩, ⟨2, 1, "Again", "Second mail", 10, 10⟩]⟩
      (by decide) (by decide) with
  | ⟨after, h1, h2, h3, _, h5, _, h7, _⟩ =>
    ⟨after, h1, h2, h3, h5, by rw [h7]; decide⟩

/-! ## C10: deleting one step of a sequence -/

/-- C10. In a database satisfying the schema constraints, let `before` be the
fault-free fetch of a sequence and `st` one of its `k ≥ 1` steps.  After a
successful `DeleteStep` of `st.ID` with the sequence's ID as reference, the
fault-free fetch returns the steps of `before` with `st` erased: `k - 1`
steps, `st` absent, every other step present unchanged and in the same
relative order.  The `sequences` table and the scalar fields of the fetched
sequence are unchanged. -/
theorem FetchSequence_after_DeleteStep (db : DB) (env : StmtEnv) (sid : Nat)
    (before : Sequence) (st ref : Step) (hwf : db.WF)
    (hb : FetchSequence db FetchEnv.ok sid = (some before, none))
    (hst : st ∈ before.Steps.toList)
    (href : ref.SequenceID = sid)
    (hd : (DeleteStep db env st.ID ref).1 = none) :
    ∃ after : Sequence,
      FetchSequence (DeleteStep db env st.ID ref).2 FetchEnv.ok sid = (some after, none) ∧
      after.Steps.toList = before.Steps.toList.erase st ∧
      after.Steps.len + 1 = before.Steps.len ∧
      st ∉ after.Steps.toList ∧
      (∀ x ∈ before.Steps.toList, x ≠ st → x ∈ after.Steps.toList) ∧
      after.Steps.toList.Sublist before.Steps.toList ∧
      (DeleteStep db env st.ID ref).2.sequences = db.sequences ∧
      { after with Steps := before.Steps } = before := by
  obtain ⟨now, ef, sf⟩ := env
  subst href
  rcases ef with _ | ef
  swap
  · simp [DeleteStep, DB.execDeleteStep] at hd
  obtain ⟨-, -, -, hnd, -⟩ := hwf
  have hid : ref.SequenceID ≤ maxInt64 := FetchSequence_some_le db _ before hb
  have hdb : (DeleteStep db ⟨now, none, sf⟩ st.ID ref).2 =
      (db.deleteStep st.ID ref.SequenceID).1 :=
    ((DeleteStep_db db ⟨now, none, sf⟩ st.ID ref).2 hd).2.2
  rw [hdb]
  cases hsel : db.selectSequence ref.SequenceID with
  | nil =>
    rw [FetchSequence_absent db _ hid hsel] at hb
    simp at hb
  | cons row rest =>
    rw [FetchSequence_present db _ row rest hid hsel] at hb
    simp only [Prod.mk.injEq, Option.some.injEq, and_true] at hb
    subst hb
    simp only [Slice.toList_collect] at hst ⊢
    have hsel' : (db.deleteStep st.ID ref.SequenceID).1.selectSequence ref.SequenceID =
        row :: rest := hsel
    have hL : ((db.selectSteps ref.SequenceID).map (fun r => r.id)).Nodup :=
      nodup_ids_perm (orderByID_perm _).symm (nodup_ids_filter _ hnd)
    have hM : ((db.selectSteps ref.SequenceID).map fetchedStep).Nodup := by
      apply List.Nodup.of_map (fun x : Step => x.ID)
      rw [List.map_map]
      exact hL
    have hsteps : ((db.deleteStep st.ID ref.SequenceID).1.selectSteps ref.SequenceID).map
        fetchedStep = ((db.selectSteps ref.SequenceID).map fetchedStep).erase st := by
      rw [selectSteps_deleteStep db _ _ hnd]
      exact map_fetchedStep_filter_id _ hL st hst
    refine ⟨_, FetchSequence_present _ _ row rest hid hsel', ?_, ?_, ?_, ?_, ?_, rfl, ?_⟩
    · simp only [Slice.toList_collect]
      exact hsteps
    · simp only [Slice.len, Slice.toList_collect, hsteps]
      rw [List.length_erase_of_mem hst]
      have := List.length_pos_of_mem hst
      omega
    · simp only [Slice.toList_collect, hsteps]
      exact hM.not_mem_erase
    · intro x hx hne
      simp only [Slice.toList_collect, hsteps]
      exact (hM.mem_erase_iff).mpr ⟨hne, hx⟩
    · simp only [Slice.toList_collect, hsteps]
      exact List.erase_sublist _ _
    · rfl

/-- C10 at a concrete input: step 1 of sequence 1 of `sampleDB` is deleted. -/
theorem FetchSequence_after_DeleteStep_witness :
    ∃ after : Sequence,
      FetchSequence (DeleteStep sampleDB (StmtEnv.ok 30) 1 ⟨0, 1, "", "", 0, 0⟩).2
          FetchEnv.ok 1 = (some after, none) ∧
      after.Steps.toList = [⟨2, 1, "Again", "Second mail", 10, 10⟩] :=
  match FetchSequence_after_DeleteStep sampleDB (StmtEnv.ok 30) 1
      ⟨1, "Welcome", true, false, 10, 10,
        .mk [⟨1, 1, "Hello", "First mail", 10, 10⟩, ⟨2, 1, "Again", "Second mail", 10, 10⟩]⟩
      ⟨1, 1, "Hello", "First mail", 10, 10⟩ ⟨0, 1, "", "", 0, 0⟩
      (by decide) (by decide) (by decide) rfl (by decide) with
  | ⟨after, h1, h2, _⟩ => ⟨after, h1, by rw [h2]; decide⟩

/-! ## C11: updating one step of a sequence -/

/-- C11. Let `before` be the fault-free fetch of a sequence and `st` one of its
steps.  After a successful `UpdateStep` of `st.ID` with a patch whose
sequence-reference is the sequence's ID, the fault-free fetch returns as many
steps in the same order: the step with ID `st.ID` carries the subject and the
content of the patch and keeps its ID, sequence-reference and creation
timestamp, and every other step is unchanged. -/
theorem FetchSequence_after_UpdateStep (db : DB) (env : StmtEnv) (sid : Nat)
    (before : Sequence) (st patch : Step)
    (hb : FetchSequence db FetchEnv.ok sid = (some before, none))
    (hst : st ∈ before.Steps.toList)
    (href : patch.SequenceID = sid)
    (hu : (UpdateStep db env st.ID patch).1 = none) :
    ∃ after : Sequence,
      FetchSequence (UpdateStep db env st.ID patch).2.1 FetchEnv.ok sid = (some after, none) ∧
      after.Steps.toList = before.Steps.toList.map (fun x =>
        if x.ID = st.ID then
          { x with Subject := patch.Subject, Content := patch.Content, UpdatedAt := env.now }
        else x) ∧
      after.Steps.len = before.Steps.len ∧
      after.Steps.toList.map (fun x => x.ID) = before.Steps.toList.map (fun x => x.ID) ∧
      (∃ x ∈ after.Steps.toList, x.ID = st.ID ∧ x.Subject = patch.Subject ∧
        x.Content = patch.Content ∧ x.SequenceID = st.SequenceID ∧
        x.CreatedAt = st.CreatedAt) ∧
      (∀ x ∈ before.Steps.toList, x.ID ≠ st.ID → x ∈ after.Steps.toList) ∧
      { after with Steps := before.Steps } = before := by
  obtain ⟨now, ef, sf⟩ := env
  subst href
  rcases ef with _ | ef
  swap
  · simp [UpdateStep] at hu
  have hid : patch.SequenceID ≤ maxInt64 := FetchSequence_some_le db _ before hb
  have hdb : (UpdateStep db ⟨now, none, sf⟩ st.ID patch).2.1 =
      (db.updateStep now st.ID patch.SequenceID patch.Subject patch.Content).1 :=
    ((UpdateStep_db db ⟨now, none, sf⟩ st.ID patch).2 hu).2.2
  rw [hdb]
  cases hsel : db.selectSequence patch.SequenceID with
  | nil =>
    rw [FetchSequence_absent db _ hid hsel] at hb
    simp at hb
  | cons row rest =>
    rw [FetchSequence_present db _ row rest hid hsel] at hb
    simp only [Prod.mk.injEq, Option.some.injEq, and_true] at hb
    subst hb
    simp only [Slice.toList_collect] at hst ⊢
    have hsel' : (db.updateStep now st.ID patch.SequenceID patch.Subject
        patch.Content).1.selectSequence patch.SequenceID = row :: rest := hsel
    have hsteps : ((db.updateStep now st.ID patch.SequenceID patch.Subject
        patch.Content).1.selectSteps patch.SequenceID).map fetchedStep =
        ((db.selectSteps patch.SequenceID).map fetchedStep).map (fun x =>
          if x.ID = st.ID then
            { x with Subject := patch.Subject, Content := patch.Content, UpdatedAt := now }
          else x) := by
      rw [selectSteps_updateStep, List.map_map, List.map_map]
      apply List.map_congr_left
      intro r hr
      have hsid := (mem_selectSteps hr).2
      by_cases h : r.id = st.ID <;> simp [fetchedStep, h, hsid]
    refine ⟨_, FetchSequence_present _ _ row rest hid hsel', ?_, ?_, ?_, ?_, ?_, ?_⟩
    · simp only [Slice.toList_collect]
      exact hsteps
    · simp only [Slice.len, Slice.toList_collect, hsteps, List.length_map]
    · simp only [Slice.toList_collect, hsteps]
      rw [List.map_map]
      apply List.map_congr_left
      intro x _
      by_cases h : x.ID = st.ID <;> simp [h]
    · simp only [Slice.toList_collect, hsteps]
      refine ⟨_, List.mem_map_of_mem _ hst, ?_⟩
      simp
    · intro x hx hne
      simp only [Slice.toList_collect, hsteps]
      have := List.mem_map_of_mem (fun x : Step =>
          if x.ID = st.ID then
            { x with Subject := patch.Subject, Content := patch.Content, UpdatedAt := now }
          else x) hx
      simpa [hne] using this
    · rfl

/-- C11 at a concrete input: step 1 of sequence 1 of `sampleDB` is rewritten. -/
theorem FetchSequence_after_UpdateStep_witness :
    ∃ after : Sequence,
      FetchSequence (UpdateStep sampleDB (StmtEnv.ok 30) 1 ⟨0, 1, "Updated", "Text", 0, 0⟩).2.1
          FetchEnv.ok 1 = (some after, none) ∧
      after.Steps.toList =
        [⟨1, 1, "Updated", "Text", 10, 30⟩, ⟨2, 1, "Again", "Second mail", 10, 10⟩] :=
  match FetchSequence_after_UpdateStep sampleDB (StmtEnv.ok 30) 1
      ⟨1, "Welcome", true, false, 10, 10,
        .mk [⟨1, 1, "Hello", "First mail", 10, 10⟩, ⟨2, 1, "Again", "Second mail", 10, 10⟩]⟩
      ⟨1, 1, "Hello", "First mail", 10, 10⟩ ⟨0, 1, "Updated", "Text", 0, 0⟩
      (by decide) (by decide) rfl (by decide) with
  | ⟨after, h1, h2, _⟩ => ⟨after, h1, by rw [h2]; decide⟩

/-! ## C12: an error of the step cursor in `FetchSequence` -/

/-- C12. The claim is that no operation returns a nil error after a backend
call or a row iteration ended in an error.  Here the cursor over the two step
rows of sequence 1 of `sampleDB` stops after one row with error 9 (so
`rows.Err()` is that error), and `FetchSequence` returns the sequence with
the one step it had read and a nil error. -/
theorem FetchSequence_returns_nil_error_on_cursor_failure :
    (mkRows (sampleDB.selectSteps 1) none (some (1, 9))).err = some (StoreError.Storage 9) ∧
    FetchSequence sampleDB ⟨none, none, none, none, some (1, 9)⟩ 1 =
      (some ⟨1, "Welcome", true, false, 10, 10, .mk [⟨1, 1, "Hello", "First mail", 10, 10⟩]⟩,
       none) := by
  decide

/-! ## C13: fetching a sequence that has no step -/

/-- C13, as stated, fails: sequence 1 of `lonelyDB` exists and has no step
rows, and the fetched step collection is not an allocated empty slice. -/
theorem FetchSequence_no_steps_not_allocated :
    ¬ ∃ s : Sequence,
      FetchSequence lonelyDB FetchEnv.ok 1 = (some s, none) ∧ s.Steps = Slice.mk [] := by
  rintro ⟨s, h1, h2⟩
  have hf : FetchSequence lonelyDB FetchEnv.ok 1 =
      (some ⟨1, "Welcome", true, false, 10, 10, .nil⟩, none) := by decide
  rw [hf] at h1
  simp only [Prod.mk.injEq, Option.some.injEq, and_true] at h1
  subst h1
  simp at h2

/-- C13, amended. For every existing sequence that has no step rows, its id
being an `int8` value and so at most `maxInt64`, a fault-free `FetchSequence`
returns a sequence whose step collection is the nil slice: it has length 0
and is not an allocated empty collection. -/
theorem FetchSequence_no_steps_nil (db : DB) (id : Nat)
    (hex : ∃ r ∈ db.sequences, r.id = id)
    (hid : id ≤ maxInt64)
    (hno : ∀ r ∈ db.steps, r.sequence_id ≠ id) :
    ∃ s : Sequence,
      FetchSequence db FetchEnv.ok id = (some s, none) ∧
      s.Steps = Slice.nil ∧ s.Steps.len = 0 ∧ s.Steps ≠ Slice.mk [] := by
  obtain ⟨r, hr, hrid⟩ := hex
  have hsteps : db.selectSteps id = [] := by
    have : db.steps.filter (fun r => r.sequence_id = id) = [] := by
      rw [List.filter_eq_nil_iff]
      intro q hq
      simpa using hno q hq
    simp only [DB.selectSteps, this, orderByID, List.insertionSort]
  cases hsel : db.selectSequence id with
  | nil =>
    rw [DB.selectSequence, List.filter_eq_nil_iff] at hsel
    have := hsel r hr
    simp [hrid] at this
  | cons row rest =>
    refine ⟨_, FetchSequence_present db id row rest hid hsel, ?_, ?_, ?_⟩
    · simp [hsteps, Slice.collect]
    · simp [hsteps, Slice.collect, Slice.len, Slice.toList]
    · simp [hsteps, Slice.collect]

/-- C13, amended, at a concrete input: sequence 1 of `lonelyDB`. -/
theorem FetchSequence_no_steps_nil_witness :
    ∃ s : Sequence,
      FetchSequence lonelyDB FetchEnv.ok 1 = (some s, none) ∧ s.Steps = Slice.nil :=
  match FetchSequence_no_steps_nil lonelyDB 1 (by decide) (by decide) (by decide) with
  | ⟨s, h1, h2, _⟩ => ⟨s, h1, h2⟩

/-! ## Lemmas on `strconv.ParseUint` -/

/-- The value of a digit string read after an accumulated value `n`. -/
theorem decimalValue_eq_foldl (cs : List Char) :
    decimalValue cs = cs.foldl (fun acc c => acc * 10 + (c.toNat - 48)) 0 := rfl

theorem foldl_digits_ge (cs : List Char) :
    ∀ n, n ≤ cs.foldl (fun acc c => acc * 10 + (c.toNat - 48)) n := by
  induction cs with
  | nil => intro n; exact Nat.le_refl n
  | cons c cs ih =>
    intro n
    simp only [List.foldl_cons]
    have := ih (n * 10 + (c.toNat - 48))
    omega

/-- The loop accepts a digit string whose value fits in 64 bits. -/
theorem parseUintLoop_digits (cs : List Char)
    (hd : ∀ c ∈ cs, 48 ≤ c.toNat ∧ c.toNat ≤ 57) :
    ∀ n, cs.foldl (fun acc c => acc * 10 + (c.toNat - 48)) n < 2 ^ 64 →
      parseUintLoop cs n = .ok (cs.foldl (fun acc c => acc * 10 + (c.toNat - 48)) n) := by
  induction cs with
  | nil => intro n _; rfl
  | cons c cs ih =>
    intro n hlt
    have hc := hd c (List.mem_cons_self _ _)
    simp only [List.foldl_cons] at hlt ⊢
    have hge := foldl_digits_ge cs (n * 10 + (c.toNat - 48))
    have hih := ih (fun x hx => hd x (List.mem_cons_of_mem _ hx)) _ hlt
    have h1 : ¬ (c.toNat - 48 ≥ 10) := by omega
    have h2 : ¬ (n ≥ cutoff) := by
      simp only [cutoff, maxUint64]
      omega
    have h3 : (n * 10 % 2 ^ 64 + (c.toNat - 48)) % 2 ^ 64 = n * 10 + (c.toNat - 48) := by
      omega
    have h4 : ¬ ((n * 10 % 2 ^ 64 + (c.toNat - 48)) % 2 ^ 64 < n * 10 % 2 ^ 64 ∨
        (n * 10 % 2 ^ 64 + (c.toNat - 48)) % 2 ^ 64 > maxUint64) := by
      simp only [maxUint64]
      omega
    simp only [parseUintLoop, hc, and_self, if_true, h1, h2, if_false]
    rw [if_neg h4, h3]
    exact hih

/-- The loop accepts nothing but digit strings whose value fits in 64 bits. -/
theorem parseUintLoop_ok (cs : List Char) :
    ∀ n v, n < 2 ^ 64 → parseUintLoop cs n = .ok v →
      (∀ c ∈ cs, 48 ≤ c.toNat ∧ c.toNat ≤ 57) ∧
      v = cs.foldl (fun acc c => acc * 10 + (c.toNat - 48)) n ∧ v < 2 ^ 64 := by
  induction cs with
  | nil =>
    intro n v hn h
    simp only [parseUintLoop, Except.ok.injEq] at h
    subst h
    exact ⟨by simp, rfl, hn⟩
  | cons c cs ih =>
    intro n v hn h
    simp only [parseUintLoop] at h
    by_cases hc : 48 ≤ c.toNat ∧ c.toNat ≤ 57
    · simp only [hc, and_self, if_true] at h
      have h1 : ¬ (c.toNat - 48 ≥ 10) := by omega
      simp only [h1, if_false] at h
      by_cases h2 : n ≥ cutoff
      · simp [h2] at h
      · simp only [h2, if_false] at h
        split at h
        · simp at h
        · rename_i h4
          simp only [cutoff, maxUint64] at h2 h4
          have h3 : (n * 10 % 2 ^ 64 + (c.toNat - 48)) % 2 ^ 64 = n * 10 + (c.toNat - 48) := by
            omega
          rw [h3] at h
          have hn' : n * 10 + (c.toNat - 48) < 2 ^ 64 := by omega
          obtain ⟨hd, hv, hlt⟩ := ih _ v hn' h
          refine ⟨?_, ?_, hlt⟩
          · intro x hx
            rcases List.mem_cons.mp hx with rfl | hx
            · exact hc
            · exact hd x hx
          · simpa using hv
    · simp only [hc, if_false] at h
      split at h
      · simp at h
      · rename_i d hdig
        split at hdig
        · rename_i hl
          simp only [Option.some.injEq] at hdig
          have : d ≥ 10 := by omega
          simp [this] at h
        · simp at hdig

/-- The call `ParseUint` succeeds exactly on the base-10 texts of unsigned
64-bit integers, with their value. -/
theorem ParseUint_ok_iff (raw : String) (v : Nat) :
    ParseUint raw = .ok v ↔ IsBase10Uint64 raw ∧ decimalValue raw.toList = v := by
  constructor
  · intro h
    by_cases he : raw.toList = []
    · rw [ParseUint, if_pos he] at h
      cases h
    · rw [ParseUint, if_neg he] at h
      obtain ⟨hd, hv, hlt⟩ := parseUintLoop_ok _ 0 v (by norm_num) h
      refine ⟨⟨he, hd, ?_⟩, ?_⟩
      · rw [decimalValue_eq_foldl, ← hv]
        exact hlt
      · rw [decimalValue_eq_foldl, ← hv]
  · rintro ⟨⟨he, hd, hlt⟩, hv⟩
    rw [ParseUint, if_neg he, parseUintLoop_digits _ hd 0 hlt, ← hv]
    rfl

theorem digitChar_toNat (d : Nat) (h : d < 10) : (Nat.digitChar d).toNat = 48 + d := by
  interval_cases d <;> rfl

/-- The digits produced by `Nat.toDigitsCore` in base 10, put in front of
`ds`, are decimal digits whose value is `n`. -/
theorem toDigitsCore_spec (fuel : Nat) :
    ∀ (n : Nat) (ds : List Char), n < fuel →
      ∃ pre : List Char, Nat.toDigitsCore 10 fuel n ds = pre ++ ds ∧ pre ≠ [] ∧
        (∀ c ∈ pre, 48 ≤ c.toNat ∧ c.toNat ≤ 57) ∧ decimalValue pre = n := by
  induction fuel with
  | zero => intro n ds h; omega
  | succ fuel ih =>
    intro n ds hn
    have hd := digitChar_toNat (n % 10) (Nat.mod_lt _ (by norm_num))
    by_cases h0 : n / 10 = 0
    · refine ⟨[Nat.digitChar (n % 10)], ?_, by simp, ?_, ?_⟩
      · simp [Nat.toDigitsCore, h0]
      · intro c hc
        simp only [List.mem_singleton] at hc
        subst hc
        omega
      · simp only [decimalValue, List.foldl_cons, List.foldl_nil, hd]
        omega
    · have hlt : n / 10 < fuel := by omega
      obtain ⟨pre, hpre, -, hdig, hval⟩ := ih (n / 10) (Nat.digitChar (n % 10) :: ds) hlt
      refine ⟨pre ++ [Nat.digitChar (n % 10)], ?_, by simp, ?_, ?_⟩
      · simp [Nat.toDigitsCore, h0, hpre]
      · intro c hc
        rcases List.mem_append.mp hc with hc | hc
        · exact hdig c hc
        · simp only [List.mem_singleton] at hc
          subst hc
          omega
      · simp only [decimalValue, List.foldl_append, List.foldl_cons, List.foldl_nil, hd] at hval ⊢
        rw [hval]
        omega

/-- The decimal text of an unsigned 64-bit integer parses to that integer. -/
theorem ParseUint_toString (n : Nat) (h : n < 2 ^ 64) : ParseUint (toString n) = .ok n := by
  obtain ⟨pre, hpre, hne, hdig, hval⟩ := toDigitsCore_spec (n + 1) n [] (Nat.lt_succ_self n)
  have hlist : (toString n).toList = pre := by
    show Nat.toDigitsCore 10 (n + 1) n [] = pre
    rw [hpre, List.append_nil]
  rw [ParseUint_ok_iff]
  refine ⟨⟨?_, ?_, ?_⟩, ?_⟩
  · rw [hlist]; exact hne
  · rw [hlist]; exact hdig
  · rw [hlist, hval]; exact h
  · rw [hlist, hval]

/-! ## Lemmas on the handlers -/

theorem fetchResourceID_ok {α : Type} (c : Context α) (param msg : String) (id : Nat)
    (h : ParseUint (c.Param param) = .ok id) : fetchResourceID c param msg = .ok id := by
  simp [fetchResourceID, h]

theorem fetchResourceID_error {α : Type} (c : Context α) (param msg : String)
    (h : ¬ IsBase10Uint64 (c.Param param)) :
    fetchResourceID c param msg = .error ⟨400, .error msg⟩ := by
  cases hp : ParseUint (c.Param param) with
  | error e => simp [fetchResourceID, hp]
  | ok v => exact absurd ((ParseUint_ok_iff _ v).mp hp).1 h

theorem outcomeResponse_status_404 (err : Option StoreError) (success : Response)
    (failure : String) (hs : success.status ≠ 404) :
    (outcomeResponse err success failure).status = 404 ↔ err = some .ErrNoRows := by
  rcases err with _ | e
  · simp [outcomeResponse, hs]
  · cases e <;> simp [outcomeResponse]

theorem fetchSequence_response (store : SequenceStore) (c : Context Unit) (id : Nat)
    (h : ParseUint (c.Param "id") = .ok id) :
    fetchSequence store c =
      ⟨outcomeResponse (store.FetchSequence id).2 ⟨200, .sequence (store.FetchSequence id).1⟩
        "resource fetching failed", [StoreCall.FetchSequence id]⟩ := by
  simp only [fetchSequence, fetchResourceID_ok c _ _ id h]
  rcases store.FetchSequence id with ⟨sq, _ | e⟩
  · rfl
  · cases e <;> simp [outcomeResponse, errorsIs, ErrResourceNotFound, ErrResourceFetchingFailed]

theorem updateSequence_response (store : SequenceStore) (c : Context UpdateSequenceRequest)
    (id : Nat) (data : UpdateSequenceRequest)
    (h : ParseUint (c.Param "id") = .ok id) (hb : c.body = some data) :
    updateSequence store c =
      ⟨outcomeResponse
        (store.UpdateSequence id
          ⟨0, "", data.OpenTrackingEnabled, data.ClickTrackingEnabled, 0, 0, .nil⟩).1
        ⟨200, .updateSequence
          ⟨(store.UpdateSequence id
              ⟨0, "", data.OpenTrackingEnabled, data.ClickTrackingEnabled, 0, 0, .nil⟩).2.ID,
           (store.UpdateSequence id
              ⟨0, "", data.OpenTrackingEnabled, data.ClickTrackingEnabled, 0, 0,
                .nil⟩).2.OpenTrackingEnabled,
           (store.UpdateSequence id
              ⟨0, "", data.OpenTrackingEnabled, data.ClickTrackingEnabled, 0, 0,
                .nil⟩).2.ClickTrackingEnabled,
           (store.UpdateSequence id
              ⟨0, "", data.OpenTrackingEnabled, data.ClickTrackingEnabled, 0, 0,
                .nil⟩).2.UpdatedAt⟩⟩
        "resource update failed",
       [StoreCall.UpdateSequence id
          ⟨0, "", data.OpenTrackingEnabled, data.ClickTrackingEnabled, 0, 0, .nil⟩]⟩ := by
  simp only [updateSequence, fetchResourceID_ok c _ _ id h, ShouldBindJSON, hb,
    UpdateSequenceRequest.valid, if_true]
  rcases store.UpdateSequence id
    ⟨0, "", data.OpenTrackingEnabled, data.ClickTrackingEnabled, 0, 0, .nil⟩ with ⟨_ | e, sq⟩
  · rfl
  · cases e <;> simp [outcomeResponse, errorsIs, ErrResourceNotFound, ErrResourceUpdateFailed]

theorem updateStep_response (store : SequenceStore) (c : Context UpdateStepRequest)
    (sequenceID id : Nat) (data : UpdateStepRequest)
    (h₁ : ParseUint (c.Param "id") = .ok sequenceID)
    (h₂ : ParseUint (c.Param "step_id") = .ok id)
    (hb : c.body = some data) (hs : data.Subject ≠ "") (hc : data.Content ≠ "") :
    updateStep store c =
      ⟨outcomeResponse
        (store.UpdateStep id ⟨0, sequenceID, data.Subject, data.Content, 0, 0⟩).1
        ⟨200, .step (store.UpdateStep id ⟨0, sequenceID, data.Subject, data.Content, 0, 0⟩).2⟩
        "resource update failed",
       [StoreCall.UpdateStep id ⟨0, sequenceID, data.Subject, data.Content, 0, 0⟩]⟩ := by
  simp only [updateStep, fetchResourceID_ok c _ _ _ h₁, fetchResourceID_ok c _ _ _ h₂,
    ShouldBindJSON, hb, UpdateStepRequest.valid]
  simp only [hs, hc, ne_eq, not_false_eq_true, decide_True, Bool.and_self, if_true]
  rcases store.UpdateStep id ⟨0, sequenceID, data.Subject, data.Content, 0, 0⟩ with ⟨_ | e, st⟩
  · rfl
  · cases e <;> simp [outcomeResponse, errorsIs, ErrResourceNotFound, ErrResourceUpdateFailed]

theorem deleteStep_response (store : SequenceStore) (c : Context Unit) (sequenceID id : Nat)
    (h₁ : ParseUint (c.Param "id") = .ok sequenceID)
    (h₂ : ParseUint (c.Param "step_id") = .ok id) :
    deleteStep store c =
      ⟨outcomeResponse (store.DeleteStep id ⟨0, sequenceID, "", "", 0, 0⟩) ⟨204, .empty⟩
        "resource deletion failed",
       [StoreCall.DeleteStep id ⟨0, sequenceID, "", "", 0, 0⟩]⟩ := by
  simp only [deleteStep, fetchResourceID_ok c _ _ _ h₁, fetchResourceID_ok c _ _ _ h₂]
  rcases store.DeleteStep id ⟨0, sequenceID, "", "", 0, 0⟩ with _ | e
  · rfl
  · cases e <;> simp [outcomeResponse, errorsIs, ErrResourceNotFound, ErrResourceDeletionFailed]

theorem createSequence_response (store : SequenceStore) (c : Context CreateSequenceRequest)
    (data : CreateSequenceRequest) (hb : c.body = some data) (hv : data.valid = true) :
    createSequence store c =
      ⟨(match (store.CreateSequence
            ⟨0, data.Name, data.OpenTrackingEnabled, data.ClickTrackingEnabled, 0, 0,
              .mk (data.Steps.toList.map
                (fun step => ⟨0, 0, step.Subject, step.Content, 0, 0⟩))⟩).1 with
        | none => ⟨201, .sequence (some (store.CreateSequence
            ⟨0, data.Name, data.OpenTrackingEnabled, data.ClickTrackingEnabled, 0, 0,
              .mk (data.Steps.toList.map
                (fun step => ⟨0, 0, step.Subject, step.Content, 0, 0⟩))⟩).2)⟩
        | some _ => ⟨500, .error "resource creation failed"⟩),
       [StoreCall.CreateSequence
          ⟨0, data.Name, data.OpenTrackingEnabled, data.ClickTrackingEnabled, 0, 0,
            .mk (data.Steps.toList.map
              (fun step => ⟨0, 0, step.Subject, step.Content, 0, 0⟩))⟩]⟩ := by
  simp only [createSequence, ShouldBindJSON, hb, hv, if_true]
  split <;> rename_i heq <;> simp [heq, ErrResourceCreationFailed]

/-! ## C14: the HTTP status is decided by the store outcome -/

/-- C14. For a request whose path parameters parse and whose body binds, the
response of each handler is a function of the store outcome alone.  The
`fetchSequence`, `updateSequence`, `updateStep` and `deleteStep` handlers
answer 404 with the error body "resource not found" exactly when the store's
error is the no-rows error, 500 with the generic failure message of the
operation for every other error, and 200 (204 for `deleteStep`) when the store
returns no error.  The `createSequence` handler answers 201 when the store
returns no error and 500 with "resource creation failed" for every error. -/
theorem handlers_status_of_outcome (store : SequenceStore) :
    (∀ (c : Context Unit) (id : Nat), ParseUint (c.Param "id") = .ok id →
      (∃ success : Response, success.status = 200 ∧
        (fetchSequence store c).response =
          outcomeResponse (store.FetchSequence id).2 success "resource fetching failed") ∧
      ((fetchSequence store c).response.status = 404 ↔
        (store.FetchSequence id).2 = some .ErrNoRows)) ∧
    (∀ (c : Context UpdateSequenceRequest) (id : Nat) (data : UpdateSequenceRequest),
      ParseUint (c.Param "id") = .ok id → c.body = some data →
      (∃ success : Response, success.status = 200 ∧
        (updateSequence store c).response =
          outcomeResponse
            (store.UpdateSequence id
              ⟨0, "", data.OpenTrackingEnabled, data.ClickTrackingEnabled, 0, 0, .nil⟩).1
            success "resource update failed") ∧
      ((updateSequence store c).response.status = 404 ↔
        (store.UpdateSequence id
          ⟨0, "", data.OpenTrackingEnabled, data.ClickTrackingEnabled, 0, 0, .nil⟩).1 =
            some .ErrNoRows)) ∧
    (∀ (c : Context UpdateStepRequest) (sequenceID id : Nat) (data : UpdateStepRequest),
      ParseUint (c.Param "id") = .ok sequenceID → ParseUint (c.Param "step_id") = .ok id →
      c.body = some data → data.Subject ≠ "" → data.Content ≠ "" →
      (∃ success : Response, success.status = 200 ∧
        (updateStep store c).response =
          outcomeResponse
            (store.UpdateStep id ⟨0, sequenceID, data.Subject, data.Content, 0, 0⟩).1
            success "resource update failed") ∧
      ((updateStep store c).response.status = 404 ↔
        (store.UpdateStep id ⟨0, sequenceID, data.Subject, data.Content, 0, 0⟩).1 =
          some .ErrNoRows)) ∧
    (∀ (c : Context Unit) (sequenceID id : Nat),
      ParseUint (c.Param "id") = .ok sequenceID → ParseUint (c.Param "step_id") = .ok id →
      (deleteStep store c).response =
        outcomeResponse (store.DeleteStep id ⟨0, sequenceID, "", "", 0, 0⟩) ⟨204, .empty⟩
          "resource deletion failed" ∧
      ((deleteStep store c).response.status = 404 ↔
        store.DeleteStep id ⟨0, sequenceID, "", "", 0, 0⟩ = some .ErrNoRows)) ∧
    (∀ (c : Context CreateSequenceRequest) (data : CreateSequenceRequest),
      c.body = some data → data.valid = true →
      ∃ success : Response, success.status = 201 ∧
        (createSequence store c).response =
          (match (store.CreateSequence
              ⟨0, data.Name, data.OpenTrackingEnabled, data.ClickTrackingEnabled, 0, 0,
                .mk (data.Steps.toList.map
                  (fun step => ⟨0, 0, step.Subject, step.Content, 0, 0⟩))⟩).1 with
            | none => success
            | some _ => ⟨500, .error "resource creation failed"⟩)) := by
  refine ⟨?_, ?_, ?_, ?_, ?_⟩
  · intro c id h
    rw [fetchSequence_response store c id h]
    exact ⟨⟨_, rfl, rfl⟩, outcomeResponse_status_404 _ _ _ (by simp)⟩
  · intro c id data h hb
    rw [updateSequence_response store c id data h hb]
    exact ⟨⟨_, rfl, rfl⟩, outcomeResponse_status_404 _ _ _ (by simp)⟩
  · intro c sequenceID id data h₁ h₂ hb hs hc
    rw [updateStep_response store c sequenceID id data h₁ h₂ hb hs hc]
    exact ⟨⟨_, rfl, rfl⟩, outcomeResponse_status_404 _ _ _ (by simp)⟩
  · intro c sequenceID id h₁ h₂
    rw [deleteStep_response store c sequenceID id h₁ h₂]
    exact ⟨rfl, outcomeResponse_status_404 _ _ _ (by simp)⟩
  · intro c data hb hv
    rw [createSequence_response store c data hb hv]
    exact ⟨_, rfl, rfl⟩

/-- C14 at a concrete input: `GET /sequences/9` on the store over `sampleDB`,
which has no sequence 9. -/
theorem handlers_status_of_outcome_witness :
    (fetchSequence (pgStore sampleDB (CreateEnv.ok 20) FetchEnv.ok (StmtEnv.ok 20))
      ⟨pathParams "9" "", some ()⟩).response.status = 404 :=
  ((handlers_status_of_outcome
      (pgStore sampleDB (CreateEnv.ok 20) FetchEnv.ok (StmtEnv.ok 20))).1
    ⟨pathParams "9" "", some ()⟩ 9 rfl).2.mpr (by decide)

/-! ## C15: rejected requests never reach the store -/

/-- C15. A request whose sequence-id or step-id path parameter is not a
base-10 text of an unsigned 64-bit integer, or whose body does not bind (it
does not decode; on create the name or the steps are missing or a step has a
missing or empty subject or content; on update-step the subject or the
content is missing or empty), is answered 400 and no store method is called.
When a path parameter is the decimal text of an unsigned 64-bit `n` and the
rest of the request is accepted, the one store call made carries exactly
`n`. -/
theorem handlers_validate_input (store : SequenceStore) :
    (∀ c : Context Unit, ¬ IsBase10Uint64 (c.Param "id") →
      (fetchSequence store c).response.status = 400 ∧ (fetchSequence store c).calls = []) ∧
    (∀ c : Context UpdateSequenceRequest, ¬ IsBase10Uint64 (c.Param "id") ∨ c.body = none →
      (updateSequence store c).response.status = 400 ∧ (updateSequence store c).calls = []) ∧
    (∀ c : Context UpdateStepRequest,
      (¬ IsBase10Uint64 (c.Param "id") ∨ ¬ IsBase10Uint64 (c.Param "step_id") ∨ c.body = none ∨
        ∃ data, c.body = some data ∧ (data.Subject = "" ∨ data.Content = "")) →
      (updateStep store c).response.status = 400 ∧ (updateStep store c).calls = []) ∧
    (∀ c : Context Unit,
      ¬ IsBase10Uint64 (c.Param "id") ∨ ¬ IsBase10Uint64 (c.Param "step_id") →
      (deleteStep store c).response.status = 400 ∧ (deleteStep store c).calls = []) ∧
    (∀ c : Context CreateSequenceRequest,
      (c.body = none ∨ ∃ data, c.body = some data ∧
        (data.Name = "" ∨ data.Steps = Slice.nil ∨
          ∃ step ∈ data.Steps.toList, step.Subject = "" ∨ step.Content = "")) →
      (createSequence store c).response.status = 400 ∧ (createSequence store c).calls = []) ∧
    (∀ (n : Nat) (c : Context Unit), n < 2 ^ 64 → c.Param "id" = toString n →
      (fetchSequence store c).calls = [StoreCall.FetchSequence n]) ∧
    (∀ (n : Nat) (c : Context UpdateSequenceRequest) (data : UpdateSequenceRequest),
      n < 2 ^ 64 → c.Param "id" = toString n → c.body = some data →
      (updateSequence store c).calls =
        [StoreCall.UpdateSequence n
          ⟨0, "", data.OpenTrackingEnabled, data.ClickTrackingEnabled, 0, 0, .nil⟩]) ∧
    (∀ (n m : Nat) (c : Context UpdateStepRequest) (data : UpdateStepRequest),
      n < 2 ^ 64 → m < 2 ^ 64 → c.Param "id" = toString n → c.Param "step_id" = toString m →
      c.body = some data → data.Subject ≠ "" → data.Content ≠ "" →
      (updateStep store c).calls =
        [StoreCall.UpdateStep m ⟨0, n, data.Subject, data.Content, 0, 0⟩]) ∧
    (∀ (n m : Nat) (c : Context Unit),
      n < 2 ^ 64 → m < 2 ^ 64 → c.Param "id" = toString n → c.Param "step_id" = toString m →
      (deleteStep store c).calls = [StoreCall.DeleteStep m ⟨0, n, "", "", 0, 0⟩]) := by
  refine ⟨?_, ?_, ?_, ?_, ?_, ?_, ?_, ?_, ?_⟩
  · intro c h
    simp [fetchSequence, fetchResourceID_error c _ _ h]
  · intro c h
    cases hp : ParseUint (c.Param "id") with
    | error e => simp [updateSequence, fetchResourceID, hp]
    | ok v =>
      rcases h with h | h
      · exact absurd ((ParseUint_ok_iff _ v).mp hp).1 h
      · simp [updateSequence, fetchResourceID, hp, ShouldBindJSON, h]
  · intro c h
    cases hp : ParseUint (c.Param "id") with
    | error e => simp [updateStep, fetchResourceID, hp]
    | ok v =>
      cases hq : ParseUint (c.Param "step_id") with
      | error e => simp [updateStep, fetchResourceID, hp, hq]
      | ok w =>
        rcases h with h | h | h | ⟨data, hb, hd⟩
        · exact absurd ((ParseUint_ok_iff _ v).mp hp).1 h
        · exact absurd ((ParseUint_ok_iff _ w).mp hq).1 h
        · simp [updateStep, fetchResourceID, hp, hq, ShouldBindJSON, h]
        · have hv : data.valid = false := by
            rcases hd with hd | hd <;> simp [UpdateStepRequest.valid, hd]
          simp [updateStep, fetchResourceID, hp, hq, ShouldBindJSON, hb, hv]
  · intro c h
    cases hp : ParseUint (c.Param "id") with
    | error e => simp [deleteStep, fetchResourceID, hp]
    | ok v =>
      cases hq : ParseUint (c.Param "step_id") with
      | error e => simp [deleteStep, fetchResourceID, hp, hq]
      | ok w =>
        rcases h with h | h
        · exact absurd ((ParseUint_ok_iff _ v).mp hp).1 h
        · exact absurd ((ParseUint_ok_iff _ w).mp hq).1 h
  · intro c h
    rcases h with h | ⟨data, hb, hd⟩
    · simp [createSequence, ShouldBindJSON, h]
    · have hv : data.valid = false := by
        rcases hd with hd | hd | ⟨step, hmem, hd⟩
        · simp [CreateSequenceRequest.valid, hd]
        · simp [CreateSequenceRequest.valid, hd]
        · have : data.Steps.toList.all CreateStepRequest.valid = false := by
            rw [List.all_eq_false]
            refine ⟨step, hmem, ?_⟩
            rcases hd with hd | hd <;> simp [CreateStepRequest.valid, hd]
          simp [CreateSequenceRequest.valid, this]
      simp [createSequence, ShouldBindJSON, hb, hv]
  · intro n c hn hp
    have h := ParseUint_toString n hn
    rw [← hp] at h
    rw [fetchSequence_response store c n h]
  · intro n c data hn hp hb
    have h := ParseUint_toString n hn
    rw [← hp] at h
    rw [updateSequence_response store c n data h hb]
  · intro n m c data hn hm hp hq hb hs hc
    have h₁ := ParseUint_toString n hn
    have h₂ := ParseUint_toString m hm
    rw [← hp] at h₁
    rw [← hq] at h₂
    rw [updateStep_response store c n m data h₁ h₂ hb hs hc]
  · intro n m c hn hm hp hq
    have h₁ := ParseUint_toString n hn
    have h₂ := ParseUint_toString m hm
    rw [← hp] at h₁
    rw [← hq] at h₂
    rw [deleteStep_response store c n m h₁ h₂]

/-- C15 at concrete inputs: `GET /sequences/abc`, a create without steps, and
`DELETE /sequences/1/steps/18446744073709551615`, on the store over
`sampleDB`. -/
theorem handlers_validate_input_witness :
    ((fetchSequence (pgStore sampleDB (CreateEnv.ok 20) FetchEnv.ok (StmtEnv.ok 20))
        ⟨pathParams "abc" "", some ()⟩).response.status = 400 ∧
     (fetchSequence (pgStore sampleDB (CreateEnv.ok 20) FetchEnv.ok (StmtEnv.ok 20))
        ⟨pathParams "abc" "", some ()⟩).calls = []) ∧
    ((createSequence (pgStore sampleDB (CreateEnv.ok 20) FetchEnv.ok (StmtEnv.ok 20))
        ⟨pathParams "" "", some ⟨"Test Sequence", true, false, .nil⟩⟩).response.status = 400 ∧
     (createSequence (pgStore sampleDB (CreateEnv.ok 20) FetchEnv.ok (StmtEnv.ok 20))
        ⟨pathParams "" "", some ⟨"Test Sequence", true, false, .nil⟩⟩).calls = []) ∧
    (deleteStep (pgStore sampleDB (CreateEnv.ok 20) FetchEnv.ok (StmtEnv.ok 20))
        ⟨pathParams "1" "18446744073709551615", some ()⟩).calls =
      [StoreCall.DeleteStep 18446744073709551615 ⟨0, 1, "", "", 0, 0⟩] :=
  ⟨(handlers_validate_input
      (pgStore sampleDB (CreateEnv.ok 20) FetchEnv.ok (StmtEnv.ok 20))).1
      ⟨pathParams "abc" "", some ()⟩ (by decide),
   (handlers_validate_input
      (pgStore sampleDB (CreateEnv.ok 20) FetchEnv.ok (StmtEnv.ok 20))).2.2.2.2.1
      ⟨pathParams "" "", some ⟨"Test Sequence", true, false, .nil⟩⟩
      (Or.inr ⟨⟨"Test Sequence", true, false, .nil⟩, rfl, Or.inr (Or.inl rfl)⟩),
   (handlers_validate_input
      (pgStore sampleDB (CreateEnv.ok 20) FetchEnv.ok (StmtEnv.ok 20))).2.2.2.2.2.2.2.2
      1 18446744073709551615 ⟨pathParams "1" "18446744073709551615", some ()⟩
      (by norm_num) (by norm_num) rfl rfl⟩

end Salesforge
